import Mathlib

/-!
Verification of the persistence subsystem of `src/data_persistence.py`
(`SmartDataManager` / `DataValidator`).

The embedding models Python values that occur in the persisted records as
the inductive type `PyVal` (JSON-representable scalars, lists and
insertion-ordered dicts).  Python dicts are modelled as association lists in
insertion order; key assignment (`d[k] = v`) keeps the position of an
existing key and appends a fresh key at the end, exactly as CPython dicts
behave.  File contents are modelled as either a parsed JSON document or
unreadable bytes (`FileContent`); the identity `json.load (json.dump v) = v`
of a round trip through a file is built into this representation, while the
*inner* string encodings performed by `_prepare_for_json` /
`_process_loaded_item` and by `calculate_checksum` are modelled by an
executable serializer and parser defined below, because the claims hinge on
them.  SHA-256 is implemented in full so that checksum comparisons evaluate
on concrete inputs.
-/

/-! ## SHA-256 (as used by `hashlib.sha256`) -/

def m32 : Nat := 4294967296

def rotr32 (n x : Nat) : Nat :=
  ((x >>> n) ||| (x <<< (32 - n))) % m32

def shaK : List Nat :=
  [1116352408, 1899447441, 3049323471, 3921009573, 961987163, 1508970993,
   2453635748, 2870763221, 3624381080, 310598401, 607225278, 1426881987,
   1925078388, 2162078206, 2614888103, 3248222580, 3835390401, 4022224774,
   264347078, 604807628, 770255983, 1249150122, 1555081692, 1996064986,
   2554220882, 2821834349, 2952996808, 3210313671, 3336571891, 3584528711,
   113926993, 338241895, 666307205, 773529912, 1294757372, 1396182291,
   1695183700, 1986661051, 2177026350, 2456956037, 2730485921, 2820302411,
   3259730800, 3345764771, 3516065817, 3600352804, 4094571909, 275423344,
   430227734, 506948616, 659060556, 883997877, 958139571, 1322822218,
   1537002063, 1747873779, 1955562222, 2024104815, 2227730452, 2361852424,
   2428436474, 2756734187, 3204031479, 3329325298]

def shaH0 : List Nat :=
  [1779033703, 3144134277, 1013904242, 2773480762,
   1359893119, 2600822924, 528734635, 1541459225]

/-- Pad a byte message per SHA-256: append `0x80`, zeros, then the 64-bit
big-endian bit length. -/
def shaPad (msg : List Nat) : List Nat :=
  let len := msg.length
  let bitLen := len * 8
  let padZeros := (55 + 64 - (len % 64)) % 64
  let lenBytes := (List.range 8).map (fun i => (bitLen >>> ((7 - i) * 8)) % 256)
  msg ++ [0x80] ++ List.replicate padZeros 0 ++ lenBytes

/-- Group bytes into 32-bit big-endian words. -/
def bytesToWords : List Nat → List Nat
  | a :: b :: c :: d :: rest => (((a * 256 + b) * 256 + c) * 256 + d) :: bytesToWords rest
  | _ => []

/-- Split a word list into blocks of 16 words (fuel-driven so that it
reduces inside the kernel). -/
def chunk16F : Nat → List Nat → List (List Nat)
  | 0, _ => []
  | _, [] => []
  | f + 1, ws => ws.take 16 :: chunk16F f (ws.drop 16)

def smallSigma0 (x : Nat) : Nat := (rotr32 7 x) ^^^ (rotr32 18 x) ^^^ (x >>> 3)
def smallSigma1 (x : Nat) : Nat := (rotr32 17 x) ^^^ (rotr32 19 x) ^^^ (x >>> 10)
def bigSigma0 (x : Nat) : Nat := (rotr32 2 x) ^^^ (rotr32 13 x) ^^^ (rotr32 22 x)
def bigSigma1 (x : Nat) : Nat := (rotr32 6 x) ^^^ (rotr32 11 x) ^^^ (rotr32 25 x)

/-- Extend a 16-word block to the 64-word message schedule. -/
def shaSchedule (w16 : List Nat) : List Nat :=
  let step : List Nat → Nat → List Nat := fun acc _ =>
    let n := acc.length
    let wn := (smallSigma1 (acc.getD (n - 2) 0) + acc.getD (n - 7) 0 +
               smallSigma0 (acc.getD (n - 15) 0) + acc.getD (n - 16) 0) % m32
    acc ++ [wn]
  (List.range 48).foldl step w16

structure Sha8 where
  a : Nat
  b : Nat
  c : Nat
  d : Nat
  e : Nat
  f : Nat
  g : Nat
  h : Nat

def shaRound (st : Sha8) (kw : Nat × Nat) : Sha8 :=
  let t1 := (st.h + bigSigma1 st.e + ((st.e &&& st.f) ^^^ ((m32 - 1 - st.e) &&& st.g)) +
             kw.1 + kw.2) % m32
  let t2 := (bigSigma0 st.a + ((st.a &&& st.b) ^^^ (st.a &&& st.c) ^^^ (st.b &&& st.c))) % m32
  { a := (t1 + t2) % m32, b := st.a, c := st.b, d := st.c,
    e := (st.d + t1) % m32, f := st.e, g := st.f, h := st.g }

def shaCompress (hs : List Nat) (block : List Nat) : List Nat :=
  let ws := shaSchedule block
  let st0 : Sha8 := { a := hs.getD 0 0, b := hs.getD 1 0, c := hs.getD 2 0, d := hs.getD 3 0,
                      e := hs.getD 4 0, f := hs.getD 5 0, g := hs.getD 6 0, h := hs.getD 7 0 }
  let st := (shaK.zip ws).foldl shaRound st0
  [(hs.getD 0 0 + st.a) % m32, (hs.getD 1 0 + st.b) % m32, (hs.getD 2 0 + st.c) % m32,
   (hs.getD 3 0 + st.d) % m32, (hs.getD 4 0 + st.e) % m32, (hs.getD 5 0 + st.f) % m32,
   (hs.getD 6 0 + st.g) % m32, (hs.getD 7 0 + st.h) % m32]

def sha256Words (msg : List Nat) : List Nat :=
  let padded := shaPad msg
  let ws := bytesToWords padded
  let blocks := chunk16F (ws.length + 1) ws
  blocks.foldl shaCompress shaH0

def hexDigit (n : Nat) : Char :=
  if n < 10 then Char.ofNat (48 + n) else Char.ofNat (87 + n)

def wordToHex (w : Nat) : List Char :=
  (List.range 8).map (fun i => hexDigit ((w >>> ((7 - i) * 4)) % 16))

def sha256hex (msg : List Nat) : String :=
  String.mk ((sha256Words msg).flatMap wordToHex)

/-- UTF-8 encoding of one character (`str.encode()`). -/
def utf8Char (c : Char) : List Nat :=
  let n := c.toNat
  if n < 0x80 then [n]
  else if n < 0x800 then [0xC0 ||| (n >>> 6), 0x80 ||| (n &&& 0x3F)]
  else if n < 0x10000 then
    [0xE0 ||| (n >>> 12), 0x80 ||| ((n >>> 6) &&& 0x3F), 0x80 ||| (n &&& 0x3F)]
  else
    [0xF0 ||| (n >>> 18), 0x80 ||| ((n >>> 12) &&& 0x3F), 0x80 ||| ((n >>> 6) &&& 0x3F),
     0x80 ||| (n &&& 0x3F)]

def utf8Bytes (s : String) : List Nat :=
  s.data.flatMap utf8Char

/-- `hashlib.sha256(s.encode()).hexdigest()[:16]`, the digest shape used by
`SmartDataManager.calculate_checksum`. -/
def sha16 (s : String) : String :=
  String.mk ((sha256hex (utf8Bytes s)).data.take 16)

/-! ## Python values

`PyVal` covers the JSON-representable values the persistence layer stores:
strings, ints, booleans, `None`, lists, and insertion-ordered dicts. -/

inductive PyVal where
  | str (s : String)
  | int (n : Int)
  | bool (b : Bool)
  | none
  | list (xs : List PyVal)
  | dict (es : List (String × PyVal))

/-- Entries of a Python dict, in insertion order. -/
abbrev PyEntries := List (String × PyVal)

mutual
def pvSize : PyVal → Nat
  | .str _ => 1
  | .int _ => 1
  | .bool _ => 1
  | .none => 1
  | .list xs => 1 + pvSizeL xs
  | .dict es => 1 + pvSizeE es
def pvSizeL : List PyVal → Nat
  | [] => 1
  | x :: t => pvSize x + pvSizeL t
def pvSizeE : PyEntries → Nat
  | [] => 1
  | (_, v) :: t => pvSize v + pvSizeE t
end

/-- `d.get(k)`: first binding of `k`, scanning insertion order. -/
def lookupEntry (es : PyEntries) (k : String) : Option PyVal :=
  match es with
  | [] => Option.none
  | (k', v) :: t => if k' = k then some v else lookupEntry t k

/-- `k in d`. -/
def hasKey (es : PyEntries) (k : String) : Bool :=
  match es with
  | [] => false
  | (k', _) :: t => if k' = k then true else hasKey t k

/-- `d[k] = v`: replace in place if the key exists, append otherwise. -/
def setKey (es : PyEntries) (k : String) (v : PyVal) : PyEntries :=
  match es with
  | [] => [(k, v)]
  | (k', w) :: t => if k' = k then (k, v) :: t else (k', w) :: setKey t k v

/-- Drop every binding of `k` (used to express "record minus a field"). -/
def eraseKey (es : PyEntries) (k : String) : PyEntries :=
  match es with
  | [] => []
  | (k', v) :: t => if k' = k then eraseKey t k else (k', v) :: eraseKey t k

/-- Python truthiness of the modelled values (`bool(v)`). -/
def pyTruthy : PyVal → Bool
  | .str s => s != ""
  | .int n => n != 0
  | .bool b => b
  | .none => false
  | .list xs => !xs.isEmpty
  | .dict es => !es.isEmpty

/-! ## Decimal rendering (`str(int)`) -/

def natDigitChars : Nat → Nat → List Char
  | 0, _ => []
  | f + 1, n => if n < 10 then [hexDigit n] else natDigitChars f (n / 10) ++ [hexDigit (n % 10)]

def natToStr (n : Nat) : String := String.mk (natDigitChars (n + 1) n)

def intToStr : Int → String
  | .ofNat n => natToStr n
  | .negSucc m => "-" ++ natToStr (m + 1)

/-! ## `json.dumps`

Compact form (no `indent`), default separators `", "` and `": "`; with
`sort_keys=True` every dict's items are sorted by key before rendering,
matching `json.dumps(data, sort_keys=True)` in `calculate_checksum`. -/

/-- One character of a JSON string literal.  `ensure_ascii=True` escapes
codepoints above `0x7e`; control characters use the named escapes of
CPython's encoder, `\u00XX` otherwise. -/
def jsonEscChar (ensureAscii : Bool) (c : Char) : List Char :=
  let n := c.toNat
  let uEsc : Nat → List Char := fun m =>
    ['\\', 'u', hexDigit ((m >>> 12) % 16), hexDigit ((m >>> 8) % 16),
     hexDigit ((m >>> 4) % 16), hexDigit (m % 16)]
  if c = '"' then ['\\', '"']
  else if c = '\\' then ['\\', '\\']
  else if c = '\n' then ['\\', 'n']
  else if c = '\t' then ['\\', 't']
  else if c = '\r' then ['\\', 'r']
  else if n = 8 then ['\\', 'b']
  else if n = 12 then ['\\', 'f']
  else if n < 0x20 then uEsc n
  else if ensureAscii && n > 0x7e then
    if n < 0x10000 then uEsc n
    else uEsc (0xD800 + ((n - 0x10000) >>> 10)) ++ uEsc (0xDC00 + ((n - 0x10000) % 1024))
  else [c]

/-- A JSON string literal, as characters. -/
def jsonQuoteC (ensureAscii : Bool) (s : String) : List Char :=
  '"' :: s.data.flatMap (jsonEscChar ensureAscii) ++ ['"']

/-- `str(int)`, as characters. -/
def intChars : Int → List Char
  | .ofNat n => natDigitChars (n + 1) n
  | .negSucc m => '-' :: natDigitChars (m + 2) (m + 1)

/-- Key ordering used by `sort_keys=True`: Python's `<` on `str` is the
lexicographic codepoint order, the order of `List Char`.  (Stated on
`String.data` because `String`'s own order does not reduce in the
kernel.) -/
def keyLe (a b : String × PyVal) : Prop := a.1.data ≤ b.1.data

instance : DecidableRel keyLe := fun a b => inferInstanceAs (Decidable (_ ≤ _))

/-- `sorted(d.items())` by key (a stable sort; Python's sort is stable). -/
def sortEntries (es : PyEntries) : PyEntries := List.insertionSort keyLe es

/-- The strict key order underlying `keyLe` (used to show key-sorted entry
lists of a dict are unique). -/
def keyLt (a b : String × PyVal) : Prop := a.1.data < b.1.data

instance : DecidableRel keyLt := fun a b => inferInstanceAs (Decidable (_ < _))

instance : IsTotal (String × PyVal) keyLe := ⟨fun a b => le_total a.1.data b.1.data⟩

instance : IsTrans (String × PyVal) keyLe := ⟨fun _ _ _ h1 h2 => le_trans h1 h2⟩

instance : IsAntisymm (String × PyVal) keyLt := ⟨fun _ _ h1 h2 => absurd h2 (lt_asymm h1)⟩

mutual
/-- Canonical form: recursively sort every dict's entries by key.  This is
the canonicalization `sort_keys=True` performs during serialization —
sorting every dict first and then printing without sorting yields exactly
the `json.dumps(..., sort_keys=True)` output.  Two values have the same
logical content up to key ordering (at any nesting depth) exactly when
their canonical forms coincide. -/
def canon : PyVal → PyVal
  | .str s => .str s
  | .int n => .int n
  | .bool b => .bool b
  | .none => .none
  | .list xs => .list (canonL xs)
  | .dict es => .dict (sortEntries (canonE es))
def canonL : List PyVal → List PyVal
  | [] => []
  | x :: t => canon x :: canonL t
def canonE : PyEntries → PyEntries
  | [] => []
  | (k, v) :: t => (k, canon v) :: canonE t
end

mutual
/-- `json.dumps` output, as characters: compact form with the default
separators `", "` / `": "`; `ea` is `ensure_ascii`.  Key sorting is
applied by `jsonDumps` below via `canon` before printing. -/
def dumpVal (ea : Bool) : PyVal → List Char
  | .str s => jsonQuoteC ea s
  | .int n => intChars n
  | .bool b => if b then ['t', 'r', 'u', 'e'] else ['f', 'a', 'l', 's', 'e']
  | .none => ['n', 'u', 'l', 'l']
  | .list xs => '[' :: dumpList ea xs ++ [']']
  | .dict es => '\x7b' :: dumpEnts ea es ++ ['\x7d']
def dumpList (ea : Bool) : List PyVal → List Char
  | [] => []
  | [x] => dumpVal ea x
  | x :: t => dumpVal ea x ++ ',' :: ' ' :: dumpList ea t
def dumpEnts (ea : Bool) : PyEntries → List Char
  | [] => []
  | [(k, v)] => jsonQuoteC ea k ++ ':' :: ' ' :: dumpVal ea v
  | (k, v) :: t => jsonQuoteC ea k ++ ':' :: ' ' :: dumpVal ea v ++ ',' :: ' ' :: dumpEnts ea t
end

/-- `json.dumps(v)`; `sk` is `sort_keys`: with `sort_keys=True` every
dict's items are rendered in sorted key order, which equals printing the
canonical form. -/
def jsonDumps (sk ea : Bool) (v : PyVal) : String :=
  String.mk (dumpVal ea (if sk then canon v else v))

/-! ## `str()` / `repr()` of Python containers

`calculate_checksum` falls into the `str(data)` branch whenever the input
is not a dict — in particular for the record *list* hashed by
`_save_to_file`.  `str` of a list/dict is its `repr`: single-quoted strings,
insertion-ordered dicts, `True` / `False` / `None`. -/

/-- `repr` of one character inside a quoted Python string literal, for the
given quote character. -/
def pyReprChar (quote : Char) (c : Char) : List Char :=
  let n := c.toNat
  if c = quote then ['\\', quote]
  else if c = '\\' then ['\\', '\\']
  else if c = '\n' then ['\\', 'n']
  else if c = '\r' then ['\\', 'r']
  else if c = '\t' then ['\\', 't']
  else if n < 0x20 || n = 0x7f then ['\\', 'x', hexDigit ((n >>> 4) % 16), hexDigit (n % 16)]
  else [c]

/-- `repr(s)` of a Python string: single quotes unless the string contains a
single quote and no double quote. -/
def pyReprStr (s : String) : String :=
  let quote := if s.data.contains '\'' && !(s.data.contains '"') then '"' else '\''
  String.mk (quote :: s.data.flatMap (pyReprChar quote) ++ [quote])

mutual
def pyRepr : PyVal → String
  | .str s => pyReprStr s
  | .int n => intToStr n
  | .bool b => if b then "True" else "False"
  | .none => "None"
  | .list xs => "[" ++ pyReprL xs ++ "]"
  | .dict es => "\x7b" ++ pyReprE es ++ "\x7d"
def pyReprL : List PyVal → String
  | [] => ""
  | [x] => pyRepr x
  | x :: t => pyRepr x ++ ", " ++ pyReprL t
def pyReprE : PyEntries → String
  | [] => ""
  | [(k, v)] => pyReprStr k ++ ": " ++ pyRepr v
  | (k, v) :: t => pyReprStr k ++ ": " ++ pyRepr v ++ ", " ++ pyReprE t
end

/-- `str(v)`: a string is itself; other values print as their `repr`. -/
def pyStr : PyVal → String
  | .str s => s
  | v => pyRepr v

/-! ## `SmartDataManager.calculate_checksum` (src/data_persistence.py:341) -/

/-- `json.dumps(data, sort_keys=True)` for dicts, `str(data)` otherwise,
then the first 16 hex digits of SHA-256. -/
def calculate_checksum (data : PyVal) : String :=
  match data with
  | .dict _ => sha16 (jsonDumps true true data)
  | _ => sha16 (pyStr data)

/-! ## `json.loads`

A recursive-descent parser for the JSON fragment the store writes
(strings, integers, booleans, `null`, arrays, objects).  Floats are outside
the embedding's value type; a number continuing with `.` / `e` fails the
parse (no claim touches float payloads).  Fuel-driven for kernel
reduction. -/

def skipWs : List Char → List Char
  | [] => []
  | c :: t => if c = ' ' || c = '\n' || c = '\t' || c = '\r' then skipWs t else c :: t

def digitVal (c : Char) : Nat := c.toNat - 48

def digitsVal (ds : List Char) : Nat := ds.foldl (fun a c => a * 10 + digitVal c) 0

def hexEscVal (a b c d : Char) : Option Nat :=
  let hv : Char → Option Nat := fun x =>
    if '0' ≤ x && x ≤ '9' then some (x.toNat - 48)
    else if 'a' ≤ x && x ≤ 'f' then some (x.toNat - 87)
    else if 'A' ≤ x && x ≤ 'F' then some (x.toNat - 55)
    else Option.none
  match hv a, hv b, hv c, hv d with
  | some x, some y, some z, some w => some (((x * 16 + y) * 16 + z) * 16 + w)
  | _, _, _, _ => Option.none

mutual
/-- Body of a JSON string literal after the opening quote.  Raw control
characters are rejected (strict mode). -/
def parseJStrAux (acc : List Char) : List Char → Option (String × List Char)
  | [] => Option.none
  | c :: t =>
    if c = '"' then some (String.mk acc.reverse, t)
    else if c = '\\' then parseJStrEsc acc t
    else if c.toNat < 0x20 then Option.none
    else parseJStrAux (c :: acc) t
/-- The escape following a backslash; `\uXXXX` maps to the codepoint
(surrogate-pair recombination is out of the modelled fragment). -/
def parseJStrEsc (acc : List Char) : List Char → Option (String × List Char)
  | [] => Option.none
  | e :: t2 =>
    if e = '"' then parseJStrAux ('"' :: acc) t2
    else if e = '\\' then parseJStrAux ('\\' :: acc) t2
    else if e = '/' then parseJStrAux ('/' :: acc) t2
    else if e = 'b' then parseJStrAux (Char.ofNat 8 :: acc) t2
    else if e = 'f' then parseJStrAux (Char.ofNat 12 :: acc) t2
    else if e = 'n' then parseJStrAux ('\n' :: acc) t2
    else if e = 'r' then parseJStrAux ('\r' :: acc) t2
    else if e = 't' then parseJStrAux ('\t' :: acc) t2
    else if e = 'u' then
      match t2 with
      | h1 :: h2 :: h3 :: h4 :: t3 =>
        match hexEscVal h1 h2 h3 h4 with
        | some n => parseJStrAux (Char.ofNat n :: acc) t3
        | Option.none => Option.none
      | _ => Option.none
    else Option.none
end

/-- The JSON number grammar's integer part: `0` or a nonzero digit followed
by digits (maximal munch). -/
def parseNatTok : List Char → Option (Nat × List Char)
  | [] => Option.none
  | c :: t =>
    if c = '0' then some (0, t)
    else if c.isDigit then some (digitsVal (c :: t.takeWhile Char.isDigit), t.dropWhile Char.isDigit)
    else Option.none

def floatFollows : List Char → Bool
  | [] => false
  | c :: _ => c = '.' || c = 'e' || c = 'E'

def parseNum : List Char → Option (PyVal × List Char)
  | [] => Option.none
  | c :: t =>
    if c = '-' then
      match parseNatTok t with
      | some (n, r) => if floatFollows r then Option.none else some (.int (-(n : Int)), r)
      | Option.none => Option.none
    else
      match parseNatTok (c :: t) with
      | some (n, r) => if floatFollows r then Option.none else some (.int (n : Int), r)
      | Option.none => Option.none

mutual
def parseValue : Nat → List Char → Option (PyVal × List Char)
  | 0, _ => Option.none
  | f + 1, cs =>
    match skipWs cs with
    | [] => Option.none
    | c :: r =>
      if c = '"' then
        match parseJStrAux [] r with
        | some (s, r2) => some (.str s, r2)
        | Option.none => Option.none
      else if c = '[' then
        match skipWs r with
        | [] => Option.none
        | c2 :: r2 =>
          if c2 = ']' then some (.list [], r2)
          else
            match parseItems f (c2 :: r2) with
            | some (xs, r3) => some (.list xs, r3)
            | Option.none => Option.none
      else if c = '\x7b' then
        match skipWs r with
        | [] => Option.none
        | c2 :: r2 =>
          if c2 = '\x7d' then some (.dict [], r2)
          else
            match parseFields f (c2 :: r2) with
            | some (es, r3) => some (.dict es, r3)
            | Option.none => Option.none
      else if c = 't' then
        match r with
        | 'r' :: 'u' :: 'e' :: r2 => some (.bool true, r2)
        | _ => Option.none
      else if c = 'f' then
        match r with
        | 'a' :: 'l' :: 's' :: 'e' :: r2 => some (.bool false, r2)
        | _ => Option.none
      else if c = 'n' then
        match r with
        | 'u' :: 'l' :: 'l' :: r2 => some (.none, r2)
        | _ => Option.none
      else parseNum (c :: r)
def parseItems : Nat → List Char → Option (List PyVal × List Char)
  | 0, _ => Option.none
  | f + 1, cs =>
    match parseValue f cs with
    | some (v, r) =>
      match skipWs r with
      | [] => Option.none
      | c :: r2 =>
        if c = ',' then
          match parseItems f r2 with
          | some (xs, r3) => some (v :: xs, r3)
          | Option.none => Option.none
        else if c = ']' then some ([v], r2)
        else Option.none
    | Option.none => Option.none
def parseFields : Nat → List Char → Option (PyEntries × List Char)
  | 0, _ => Option.none
  | f + 1, cs =>
    match skipWs cs with
    | [] => Option.none
    | c :: r =>
      if c = '"' then
        match parseJStrAux [] r with
        | some (k, r2) =>
          match skipWs r2 with
          | [] => Option.none
          | c2 :: r3 =>
            if c2 = ':' then
              match parseValue f r3 with
              | some (v, r4) =>
                match skipWs r4 with
                | [] => Option.none
                | c3 :: r5 =>
                  if c3 = ',' then
                    match parseFields f r5 with
                    | some (es, r6) => some ((k, v) :: es, r6)
                    | Option.none => Option.none
                  else if c3 = '\x7d' then some ([(k, v)], r5)
                  else Option.none
              | Option.none => Option.none
            else Option.none
        | Option.none => Option.none
      else Option.none
end

/-- `json.loads(s)`: parse one document; trailing content other than
whitespace is an error ("Extra data"). -/
def jsonLoads (s : String) : Option PyVal :=
  match parseValue (s.length + 1) s.data with
  | some (v, rest) => if (skipWs rest).isEmpty then some v else Option.none
  | Option.none => Option.none

/-! ## `datetime.fromisoformat`

Modelled for the string shapes this application produces and validates
(`datetime.isoformat()` output): `YYYY-MM-DD`, optionally a separator
character and `HH:MM[:SS[.fff or .ffffff]]` and an optional `±HH:MM`
offset, with calendar/clock range checks. -/

def isLeapYear (y : Nat) : Bool := (y % 4 = 0 && y % 100 ≠ 0) || y % 400 = 0

def daysInMonth (y m : Nat) : Nat :=
  if m = 2 then (if isLeapYear y then 29 else 28)
  else if m = 4 || m = 6 || m = 9 || m = 11 then 30
  else 31

/-- Consume `YYYY-MM-DD`, validating the calendar ranges. -/
def isoDateTail (cs : List Char) : Option (List Char) :=
  match cs with
  | y1 :: y2 :: y3 :: y4 :: '-' :: m1 :: m2 :: '-' :: d1 :: d2 :: r =>
    if y1.isDigit && y2.isDigit && y3.isDigit && y4.isDigit &&
       m1.isDigit && m2.isDigit && d1.isDigit && d2.isDigit then
      let y := ((digitVal y1 * 10 + digitVal y2) * 10 + digitVal y3) * 10 + digitVal y4
      let m := digitVal m1 * 10 + digitVal m2
      let d := digitVal d1 * 10 + digitVal d2
      if 1 ≤ m && m ≤ 12 && 1 ≤ d && d ≤ daysInMonth y m then some r else Option.none
    else Option.none
  | _ => Option.none

def isoOffsetOk (cs : List Char) : Bool :=
  match cs with
  | [] => true
  | s :: h1 :: h2 :: ':' :: m1 :: m2 :: [] =>
    (s = '+' || s = '-') && h1.isDigit && h2.isDigit && m1.isDigit && m2.isDigit &&
      digitVal h1 * 10 + digitVal h2 ≤ 23 && digitVal m1 * 10 + digitVal m2 ≤ 59
  | _ => false

def isoTimeOk (cs : List Char) : Bool :=
  match cs with
  | h1 :: h2 :: ':' :: m1 :: m2 :: r =>
    h1.isDigit && h2.isDigit && m1.isDigit && m2.isDigit &&
    digitVal h1 * 10 + digitVal h2 ≤ 23 && digitVal m1 * 10 + digitVal m2 ≤ 59 &&
    (match r with
     | ':' :: s1 :: s2 :: r2 =>
       s1.isDigit && s2.isDigit && digitVal s1 * 10 + digitVal s2 ≤ 59 &&
       (match r2 with
        | '.' :: r3 =>
          let frac := r3.takeWhile Char.isDigit
          (frac.length = 3 || frac.length = 6) && isoOffsetOk (r3.dropWhile Char.isDigit)
        | _ => isoOffsetOk r2)
     | _ => isoOffsetOk r)
  | _ => false

def fromisoformatOk (s : String) : Bool :=
  match isoDateTail s.data with
  | some [] => true
  | some (_ :: r) => isoTimeOk r
  | Option.none => false

/-! ## `DataValidator` (src/data_persistence.py:39)

A validator may *raise* (e.g. `datetime.fromisoformat` applied to a
non-string raises `TypeError`, which `validate_task` does not catch); the
`Except Unit` layer models that propagating exception. -/

def showOptPy : Option PyVal → String
  | Option.none => "None"
  | some v => pyStr v

def valid_statuses : List String := ["pending", "in_progress", "completed", "cancelled"]

def valid_priorities : List String := ["none", "low", "medium", "high"]

def valid_frequencies : List String := ["daily", "weekly", "monthly", "custom"]

/-- `DataValidator.validate_task`. -/
def validate_task (task : PyEntries) : Except Unit (Bool × List String) := do
  let missing := (["id", "title", "status", "created_at"].filter
      (fun f => !hasKey task f)).map (fun f => "Missing required field: " ++ f)
  let createdErrs ← match lookupEntry task "created_at" with
    | some (.str s) => pure (if fromisoformatOk s then [] else ["Invalid created_at format"])
    | some _ => throw ()
    | Option.none => pure []
  let dueErrs ← match lookupEntry task "due_date" with
    | some v =>
      if pyTruthy v then
        match v with
        | .str s => pure (if fromisoformatOk s then [] else ["Invalid due_date format"])
        | _ => throw ()
      else pure []
    | Option.none => pure []
  let statusOk := match lookupEntry task "status" with
    | some (.str s) => valid_statuses.contains s
    | _ => false
  let statusErrs := if statusOk then [] else
    ["Invalid status: " ++ showOptPy (lookupEntry task "status")]
  let priorityOk := match lookupEntry task "priority" with
    | some (.str s) => valid_priorities.contains s
    | _ => false
  let priorityErrs := if priorityOk then [] else
    ["Invalid priority: " ++ showOptPy (lookupEntry task "priority")]
  let errs := missing ++ createdErrs ++ dueErrs ++ statusErrs ++ priorityErrs
  pure (errs.isEmpty, errs)

/-- `DataValidator.validate_habit`. -/
def validate_habit (habit : PyEntries) : Except Unit (Bool × List String) := do
  let missing := (["id", "name", "frequency", "created_at"].filter
      (fun f => !hasKey habit f)).map (fun f => "Missing required field: " ++ f)
  let freqOk := match lookupEntry habit "frequency" with
    | some (.str s) => valid_frequencies.contains s
    | _ => false
  let freqErrs := if freqOk then [] else
    ["Invalid frequency: " ++ showOptPy (lookupEntry habit "frequency")]
  let dateErrs ← match lookupEntry habit "completion_dates" with
    | some (.list ds) =>
      ds.foldlM (fun acc d =>
        match d with
        | .str s => pure (acc ++ (if fromisoformatOk s then [] else ["Invalid completion date: " ++ s]))
        | _ => throw ()) ([] : List String)
    | some (.str s) =>
      -- iterating a Python string yields its one-character strings
      pure (s.data.filterMap (fun c =>
        if fromisoformatOk (String.mk [c]) then Option.none
        else some ("Invalid completion date: " ++ String.mk [c])))
    | some (.dict es) =>
      -- iterating a dict yields its keys
      pure ((es.map Prod.fst).filterMap
        (fun k => if fromisoformatOk k then Option.none else some ("Invalid completion date: " ++ k)))
    | some _ => throw ()
    | Option.none => pure []
  let errs := missing ++ freqErrs ++ dateErrs
  pure (errs.isEmpty, errs)

def joinSemi (l : List String) : String := String.intercalate "; " l

def toEntries : PyVal → PyEntries
  | .dict es => es
  | _ => []

def isDictV : PyVal → Bool
  | .dict _ => true
  | _ => false

/-! ## `SmartDataManager` record pipeline

`stamp_record` is the body of the stamping loop in `save_data`
(src/data_persistence.py:375-380): default `updated_at`, then assign the
checksum of the record *as it currently stands* (so including any previous
`checksum` field and the previous `version`), then increment the version.
A non-integer, non-boolean previous `version` would make `+ 1` raise in
Python; such records are outside the modelled record space. -/

def stamp_record (now : String) (item : PyEntries) : PyEntries :=
  let item1 := if hasKey item "updated_at" then item else setKey item "updated_at" (.str now)
  let item2 := setKey item1 "checksum" (.str (calculate_checksum (.dict item1)))
  let oldVersion : Int := match lookupEntry item2 "version" with
    | some (.int n) => n
    | some (.bool b) => if b then 1 else 0
    | _ => 1
  setKey item2 "version" (.int (oldVersion + 1))

/-- The list-valued fields that `_prepare_for_json` serializes to JSON
strings. -/
def jsonStringFields : List String := ["tags", "subtasks", "completion_dates", "dependencies"]

/-- The fields `_process_loaded_item` parses back from JSON strings (note
the extra `notes`). -/
def list_fields : List String := ["tags", "subtasks", "completion_dates", "dependencies", "notes"]

/-- `SmartDataManager._prepare_for_json` (src/data_persistence.py:536).
`date`/`datetime` objects never occur in the modelled (JSON-representable)
record space, so the isoformat branch has no case here. -/
def prepare_for_json (item : PyEntries) : PyEntries :=
  item.map (fun kv =>
    match kv with
    | (k, .list xs) =>
      (k, if jsonStringFields.contains k then
            .str (if xs.isEmpty then "[]" else jsonDumps false true (.list xs))
          else .list xs)
    | (k, .dict es) => (k, .str (jsonDumps false true (.dict es)))
    | kv => kv)

/-- One iteration of `_process_loaded_item`'s field loop: if the field is
present and holds a string, replace it with `json.loads` of that string,
or `[]` when the parse fails. -/
def processField (it : PyEntries) (field : String) : PyEntries :=
  match lookupEntry it field with
  | some (.str s) =>
    setKey it field (match jsonLoads s with
      | some w => w
      | Option.none => .list [])
  | _ => it

/-- `SmartDataManager._process_loaded_item` (src/data_persistence.py:550). -/
def process_loaded_item (item : PyEntries) : PyEntries :=
  list_fields.foldl processField item

/-! ## The record space on which save/load round-trips (claim C5)

`plainCharB` marks characters that JSON-encode to themselves (no escape,
printable ASCII); `niceValB` the values (scalars and nested lists, with
plain strings and no floats) for which the serializer/parser round trip is
proved; `goodFieldB` the field shapes `_prepare_for_json` /
`_process_loaded_item` map back to themselves: no dict values (stringified
but never parsed back), no string values under the five `list_fields`
(those get `json.loads`-mangled on load — the `notes` failure), and the
four stringified list fields hold `nice` lists. -/

def plainCharB (c : Char) : Bool :=
  c ≠ '"' && c ≠ '\\' && 0x20 ≤ c.toNat && c.toNat ≤ 0x7e

mutual
def niceValB : PyVal → Bool
  | .str s => s.data.all plainCharB
  | .int _ => true
  | .bool _ => true
  | .none => true
  | .list xs => niceListB xs
  | .dict _ => false
def niceListB : List PyVal → Bool
  | [] => true
  | x :: t => niceValB x && niceListB t
end

def goodFieldB (k : String) : PyVal → Bool
  | .dict _ => false
  | .str _ => !list_fields.contains k
  | .list xs => !jsonStringFields.contains k || niceListB xs
  | _ => true

/-- A record (with distinct keys, as every Python dict has) whose fields
survive the save/load pipeline unchanged. -/
def GoodRecord (r : PyEntries) : Prop :=
  (r.map Prod.fst).Nodup ∧ ∀ p ∈ r, goodFieldB p.1 p.2 = true

/-- The rest of the input is not a continuation of a number token. -/
def numStopB : List Char → Bool
  | [] => true
  | c :: _ => !c.isDigit && c ≠ '.' && c ≠ 'e' && c ≠ 'E'

/-! ## File backend -/

/-- A file on disk: either a JSON document (the identity of a
`json.dump` / `json.load` round trip is built into the representation) or
unparseable bytes. -/
inductive FileContent where
  | json (v : PyVal)
  | invalid

/-- Failure injection for the fallible steps of `_save_to_file`; the three
flags cover serialization, the temp-file write, and the final rename. -/
structure FsOracle where
  serializeOk : Bool
  writeTempOk : Bool
  renameOk : Bool

/-- The envelope `_save_to_file` writes: metadata (timestamp, version,
count, aggregate checksum over the serialized record *list* — which takes
the `str(data)` branch of `calculate_checksum`) plus the data list. -/
def fileEnvelope (now : String) (serializable : List PyEntries) : PyVal :=
  .dict [("metadata", .dict
            [("timestamp", .str now), ("version", .str "2.0"),
             ("count", .int serializable.length),
             ("checksum", .str (calculate_checksum (.list (serializable.map .dict))))]),
         ("data", .list (serializable.map .dict))]

structure FileWrite where
  file : Option FileContent
  temp : Option PyVal
  raised : Bool

/-- `SmartDataManager._save_to_file` (src/data_persistence.py:464): prepare
each record, write the envelope to a temp sibling, atomically rename.  On
any failure the `except` block removes the temp file and re-raises; only
the rename publishes a new visible file. -/
def save_to_file (o : FsOracle) (now : String) (prev : Option FileContent)
    (data : List PyEntries) : FileWrite :=
  let serializable := data.map prepare_for_json
  if !o.serializeOk then { file := prev, temp := Option.none, raised := true }
  else if !o.writeTempOk then { file := prev, temp := Option.none, raised := true }
  else if !o.renameOk then { file := prev, temp := Option.none, raised := true }
  else { file := some (.json (fileEnvelope now serializable)), temp := Option.none, raised := false }

/-- `SmartDataManager._load_from_file` (src/data_persistence.py:498).
Returns the loaded records plus emitted warnings/errors.  Every raise
inside the body is caught by its `except`, which returns `[]`. -/
def load_from_file (dt : String) (file : Option FileContent) : List PyEntries × List String :=
  match file with
  | Option.none => ([], [])
  | some .invalid => ([], ["Error loading " ++ dt])
  | some (.json v) =>
    match v with
    | .list items =>
      -- old format: the whole document is the record list
      if items.all isDictV then (items.map (fun it => process_loaded_item (toEntries it)), [])
      else ([], ["Error loading " ++ dt])
    | .dict fc =>
      let metadata := match lookupEntry fc "metadata" with
        | some (.dict m) => m
        | _ => []
      match lookupEntry fc "data" with
      | some (.list items) =>
        if items.all isDictV then
          let warns := match lookupEntry metadata "checksum" with
            | Option.none => []
            | some stored =>
              let calcd := calculate_checksum (.list items)
              match stored with
              | .str c => if calcd ≠ c then ["Data integrity check failed for " ++ dt] else []
              | _ => ["Data integrity check failed for " ++ dt]
          (items.map (fun it => process_loaded_item (toEntries it)), warns)
        else ([], ["Error loading " ++ dt])
      | some _ => ([], ["Error loading " ++ dt])
      | Option.none => ([], [])
    | _ => ([], ["Error loading " ++ dt])

/-! ## Lock manager (src/data_persistence.py:305) -/

/-- `acquire_lock`: with no token the caller's pid is written; a token held
by a live process makes every retry sleep until the timeout elapses
(`False`, token untouched); a stale token is unlinked and the lock then
acquired on the next iteration. -/
def acquire_lock (alive : Nat → Bool) (selfPid : Nat) (lock : Option Nat) : Bool × Option Nat :=
  match lock with
  | Option.none => (true, some selfPid)
  | some pid => if alive pid then (false, some pid) else (true, some selfPid)

/-- `release_lock`: unconditionally remove the token file if present. -/
def release_lock (_lock : Option Nat) : Option Nat := Option.none

/-! ## Store state and `save_data` / `load_data` -/

/-- The mutable state the modelled operations touch: the two live entity
files, the lock token, the archive directory (modification time paired with
each archive's parsed `data.json`), and the `auto_backup` flag. -/
structure Store where
  autoBackup : Bool
  tasksFile : Option FileContent
  habitsFile : Option FileContent
  lockFile : Option Nat
  backups : List (Nat × PyVal)

def getFile (st : Store) (dt : String) : Option FileContent :=
  if dt = "tasks" then st.tasksFile
  else if dt = "habits" then st.habitsFile
  else Option.none

def setFileIn (st : Store) (dt : String) (f : Option FileContent) : Store :=
  if dt = "tasks" then { st with tasksFile := f }
  else if dt = "habits" then { st with habitsFile := f }
  else st

/-- `max(backup_files, key=mtime)` — first maximal element. -/
def latestBackup (bs : List (Nat × PyVal)) : Option (Nat × PyVal) :=
  bs.foldl (fun best b =>
    match best with
    | Option.none => some b
    | some cur => if b.1 > cur.1 then some b else some cur) Option.none

/-- `SmartDataManager._recover_from_backup` (src/data_persistence.py:1146):
read the most recent archive and return its collection for the entity type
verbatim (no validation, no per-item processing). -/
def recover_from_backup (dt : String) (backups : List (Nat × PyVal)) : List PyEntries :=
  match latestBackup backups with
  | Option.none => []
  | some (_, arch) =>
    match arch with
    | .dict es =>
      match lookupEntry es dt with
      | some (.list items) => items.map toEntries
      | _ => []
    | _ => []

/-- The validation loop of `save_data` (src/data_persistence.py:360-373):
returns the first invalid record with its violation list — the code
reports that record's errors and aborts — or `Option.none` when every
record passes.  A raising validator propagates. -/
def first_invalid (dt : String) : List PyEntries → Except Unit (Option (PyEntries × List String))
  | [] => pure Option.none
  | r :: t => do
    let res ← (if dt = "tasks" then validate_task r else validate_habit r)
    if res.1 then first_invalid dt t else pure (some (r, res.2))

structure SaveResult where
  ok : Bool
  msgs : List String
  store : Store
  /-- the caller's record list after the call — `save_data` mutates the
  records in place -/
  records : List PyEntries

/-- `SmartDataManager.save_data` (src/data_persistence.py:350), file
backend.  The `finally` block always runs `release_lock`.  The
opportunistic background auto-backup spawned on success runs
asynchronously and is not part of the modelled state transition. -/
def save_data (dt : String) (records : List PyEntries) (validate : Bool) (o : FsOracle)
    (st : Store) (now : String) (selfPid : Nat) (alive : Nat → Bool) : SaveResult :=
  let (got, lock1) := acquire_lock alive selfPid st.lockFile
  let st1 : Store := { st with lockFile := lock1 }
  if !got then
    { ok := false, msgs := ["Could not acquire data lock. Please try again."],
      store := { st1 with lockFile := release_lock st1.lockFile }, records := records }
  else
    match (if validate && (dt = "tasks" || dt = "habits")
           then first_invalid dt records else .ok Option.none) with
    | .error _ =>
      { ok := false, msgs := ["Save failed"],
        store := { st1 with lockFile := release_lock st1.lockFile }, records := records }
    | .ok (some (_, errs)) =>
      { ok := false,
        msgs := [(if dt = "tasks" then "Task" else "Habit") ++ " validation failed: " ++ joinSemi errs],
        store := { st1 with lockFile := release_lock st1.lockFile }, records := records }
    | .ok Option.none =>
      let records' := records.map (stamp_record now)
      let fw := save_to_file o now (getFile st1 dt) records'
      if fw.raised then
        { ok := false, msgs := ["Save failed"],
          store := { setFileIn st1 dt fw.file with lockFile := release_lock st1.lockFile },
          records := records' }
      else
        { ok := true, msgs := [],
          store := { setFileIn st1 dt fw.file with lockFile := release_lock st1.lockFile },
          records := records' }

/-- `data_type[:-1]`. -/
def singularOf (dt : String) : String := String.mk dt.data.dropLast

/-- The post-load validation filter of `load_data`
(src/data_persistence.py:431-446): keep valid records, warn and skip
invalid ones. -/
def filter_validated (dt : String) (data : List PyEntries) :
    Except Unit (List PyEntries × List String) :=
  data.foldlM (fun acc item => do
    let res ← (if dt = "tasks" then validate_task item
               else if dt = "habits" then validate_habit item
               else pure (true, []))
    if res.1 then pure (acc.1 ++ [item], acc.2)
    else pure (acc.1, acc.2 ++ ["Skipped invalid " ++ singularOf dt ++ ": " ++ joinSemi res.2]))
    (([], []) : List PyEntries × List String)

structure LoadResult where
  records : List PyEntries
  msgs : List String

/-- `SmartDataManager.load_data` (src/data_persistence.py:418), file
backend.  `_load_from_file` catches its own exceptions and returns `[]`,
so for this backend the only raise reaching `load_data`'s handler — which
falls back to `_recover_from_backup` when `auto_backup` is set — is one
escaping a validator during the post-load filter. -/
def load_data (dt : String) (validate : Bool) (st : Store) : LoadResult :=
  let (data, msgs0) := load_from_file dt (getFile st dt)
  if validate && !data.isEmpty then
    match filter_validated dt data with
    | .ok (kept, warns) => { records := kept, msgs := msgs0 ++ warns }
    | .error _ =>
      if st.autoBackup then
        { records := recover_from_backup dt st.backups,
          msgs := msgs0 ++ ["Load failed", "Attempting to recover from backup..."] }
      else { records := [], msgs := msgs0 ++ ["Load failed"] }
  else { records := data, msgs := msgs0 }

/-! ## Backup creation and restore verification -/

/-- The `backup_data` dict assembled by `create_backup`
(src/data_persistence.py:688-704) before the metadata update: preliminary
metadata plus every collection. -/
def backup_data_initial (backupId now : String) (description : Option String)
    (backupType : String) (tasks habits lists folders templates : List PyVal)
    (settings productivityMetrics notificationPrefs : PyEntries) : PyEntries :=
  [("metadata", .dict
      [("id", .str backupId), ("timestamp", .str now), ("version", .str "2.0"),
       ("description", match description with | some d => .str d | Option.none => .none),
       ("backup_type", .str backupType)]),
   ("tasks", .list tasks), ("habits", .list habits), ("lists", .list lists),
   ("folders", .list folders), ("templates", .list templates),
   ("settings", .dict settings), ("productivity_metrics", .dict productivityMetrics),
   ("notification_preferences", .dict notificationPrefs)]

/-- `file_count`: non-metadata keys with truthy values
(src/data_persistence.py:707). -/
def backupFileCount (es : PyEntries) : Nat :=
  (es.filter (fun kv => kv.1 ≠ "metadata" && pyTruthy kv.2)).length

/-- Finalize the archive (src/data_persistence.py:706-717): compute
`file_count`, `total_size` (UTF-8 byte length of
`json.dumps(backup_data, default=str, ensure_ascii=False)`) and the
aggregate checksum `calculate_checksum(backup_data)` — over the dict
*including* the preliminary `'metadata'` entry — then update the metadata
with all three. -/
def create_backup_archive (es : PyEntries) : PyEntries :=
  let fc := backupFileCount es
  let ts := (utf8Bytes (jsonDumps false false (.dict es))).length
  let ck := calculate_checksum (.dict es)
  match lookupEntry es "metadata" with
  | some (.dict m) =>
    setKey es "metadata"
      (.dict (setKey (setKey (setKey m "file_count" (.int fc)) "total_size" (.int ts))
        "checksum" (.str ck)))
  | _ => es

/-- The integrity verification of `restore_backup`
(src/data_persistence.py:781-790): when the stored metadata carries a
(truthy) checksum, recompute `calculate_checksum` over the archive dict
*without* its `'metadata'` entry and compare; `false` means the restore is
refused ("Backup integrity check failed"). -/
def restore_checksum_ok (archive : PyEntries) : Bool :=
  let metadata := match lookupEntry archive "metadata" with
    | some (.dict m) => m
    | _ => []
  match lookupEntry metadata "checksum" with
  | Option.none => true
  | some expected =>
    if pyTruthy expected then
      let dataForChecksum := archive.filter (fun kv => kv.1 ≠ "metadata")
      match expected with
      | .str e => calculate_checksum (.dict dataForChecksum) = e
      | _ => false
    else true

/-! ## Backup retention (src/data_persistence.py:887) -/

/-- One archive file as `cleanup_old_backups` sees it: its modification
time and, when the zip is readable, the `backup_type` from its metadata
(with the `.get` default `'manual'`); an unreadable archive is treated as
automatic. -/
structure BArch where
  readable : Bool
  btype : String
  mtime : Nat

def isManualArch (a : BArch) : Bool := a.readable && a.btype = "manual"

/-- Sort newest first (`sort(key=mtime, reverse=True)`). -/
def mtimeGe (a b : BArch) : Prop := b.mtime ≤ a.mtime

instance : DecidableRel mtimeGe := fun a b => inferInstanceAs (Decidable (_ ≤ _))

instance : IsTotal BArch mtimeGe := ⟨fun a b => le_total b.mtime a.mtime⟩

instance : IsTrans BArch mtimeGe := ⟨fun _ _ _ h1 h2 => le_trans h2 h1⟩

def sortNewestFirst (l : List BArch) : List BArch := List.insertionSort mtimeGe l

structure CleanupResult where
  keptManual : List BArch
  keptAuto : List BArch
  deletedManual : List BArch
  deletedAuto : List BArch

/-- `SmartDataManager.cleanup_old_backups`: nothing is deleted while the
total count is within `keep_count`; otherwise the automatic archives
beyond the newest `keep_count - max 5 (keep_count / 2)` are deleted
unconditionally, and manual archives beyond the newest
`max 5 (keep_count / 2)` are deleted only when older than `keep_days`
(`timedelta.days` truncation).  Deletion itself always succeeds in the
model (I/O failures are logged and skipped by the code). -/
def cleanup_old_backups (keepCount keepDays now : Nat) (archives : List BArch) : CleanupResult :=
  if archives.length ≤ keepCount then
    { keptManual := archives.filter isManualArch,
      keptAuto := archives.filter (fun a => !isManualArch a),
      deletedManual := [], deletedAuto := [] }
  else
    let manualBackups := sortNewestFirst (archives.filter isManualArch)
    let autoBackups := sortNewestFirst (archives.filter (fun a => !isManualArch a))
    let manualKeep := max 5 (keepCount / 2)
    let autoKeep := keepCount - manualKeep
    let oldManual := manualBackups.drop manualKeep
    { keptManual := manualBackups.take manualKeep ++
        oldManual.filter (fun a => !((now - a.mtime) / 86400 > keepDays)),
      keptAuto := autoBackups.take autoKeep,
      deletedManual := oldManual.filter (fun a => (now - a.mtime) / 86400 > keepDays),
      deletedAuto := autoBackups.drop autoKeep }

/-! ## Small projection helpers used by theorem statements -/

/-- The string value of a field, when it is a string. -/
def lookupStr (es : PyEntries) (k : String) : Option String :=
  match lookupEntry es k with
  | some (.str s) => some s
  | _ => Option.none

/-- The integer value of a field, when it is an integer. -/
def lookupInt (es : PyEntries) (k : String) : Option Int :=
  match lookupEntry es k with
  | some (.int n) => some n
  | _ => Option.none

/-- The metadata sub-dict of an archive (`.get('metadata', {})`). -/
def metadataEntries (es : PyEntries) : PyEntries :=
  match lookupEntry es "metadata" with
  | some (.dict m) => m
  | _ => []

/-! ## Concrete scenario definitions used by the claim theorems -/

/-- The `backup_data` of a minimal backup (empty collections), as
`create_backup` assembles it before the metadata update. -/
def c1InitialData : PyEntries :=
  backup_data_initial "backup_20240102_030405" "2024-01-02T03:04:05" Option.none "manual"
    [] [] [] [] [] [] [] []

def c2Task (i : String) : PyVal :=
  .dict [("id", .str i), ("title", .str ("Task " ++ i)), ("status", .str "pending"),
         ("created_at", .str "2024-01-01T00:00:00"), ("priority", .str "low")]

def c2Tasks : List PyVal := [c2Task "1", c2Task "2", c2Task "3", c2Task "4", c2Task "5"]

/-- A store whose live tasks file is corrupt (unparseable JSON) while one
archive holding the five valid tasks exists. -/
def c2Store : Store :=
  { autoBackup := true, tasksFile := some .invalid, habitsFile := Option.none,
    lockFile := Option.none,
    backups := [(100, .dict (backup_data_initial "backup_1" "2024-01-01T01:00:00" Option.none
      "manual" c2Tasks [] [] [] [] [] [] []))] }

/-- A valid task record on its first save: no `version`, no `checksum`. -/
def c3Record : PyEntries :=
  [("id", .str "1"), ("title", .str "A"), ("status", .str "pending"),
   ("created_at", .str "2024-01-01T00:00:00"), ("priority", .str "low"),
   ("updated_at", .str "2024-01-01T00:00:00")]

def c3Stamped : PyEntries := stamp_record "2024-01-02T00:00:00" c3Record

/-- A record with an existing integer version, for the amended C3
witness. -/
def c3VersionedRecord : PyEntries := c3Record ++ [("version", .int 3)]

/-- Two one-record lists whose single dict has the same mappings in
different key order — the shape `_save_to_file` hashes for its aggregate
checksum. -/
def c4List1 : PyVal := .list [.dict [("a", .int 1), ("b", .int 2)]]

def c4List2 : PyVal := .list [.dict [("b", .int 2), ("a", .int 1)]]

/-- Two copies of one dict with reordered entries, for the amended C4
witness. -/
def c4WitnessEs : PyEntries := [("beta", .int 2), ("alpha", .str "x")]

def c4WitnessFs : PyEntries := [("alpha", .str "x"), ("beta", .int 2)]

def c6Store : Store :=
  { autoBackup := true, tasksFile := some .invalid, habitsFile := Option.none,
    lockFile := some 999, backups := [] }

def c6Result : SaveResult :=
  save_data "tasks" [] true ⟨true, true, true⟩ c6Store "2024-01-02T00:00:00" 1000
    (fun p => p == 999)

def c7Good (i : String) : PyEntries :=
  [("id", .str i), ("title", .str ("Good " ++ i)), ("status", .str "pending"),
   ("created_at", .str "2024-01-01T00:00:00"), ("priority", .str "low")]

/-- The one record of the C7 batch with an invalid status value. -/
def c7Bad : PyEntries :=
  [("id", .str "t2"), ("title", .str "Beta"), ("status", .str "bogus"),
   ("created_at", .str "2024-01-01T00:00:00"), ("priority", .str "low")]

def c7Store : Store :=
  { autoBackup := true, tasksFile := Option.none, habitsFile := Option.none,
    lockFile := Option.none, backups := [] }

def c7Result : SaveResult :=
  save_data "tasks" [c7Good "t1", c7Bad, c7Good "t3"] true ⟨true, true, true⟩ c7Store
    "2024-01-02T00:00:00" 1000 (fun _ => false)

/-- A record without `updated_at`, with a previous version, used by the C10
witness to show the in-place mutations. -/
def c10Record : PyEntries :=
  [("id", .str "x1"), ("title", .str "X"), ("status", .str "pending"),
   ("created_at", .str "2024-01-01T00:00:00"), ("priority", .str "high"),
   ("version", .int 7)]

def c10Store : Store :=
  { autoBackup := true, tasksFile := some (.json (.list [])), habitsFile := Option.none,
    lockFile := Option.none, backups := [] }

/-- A valid task whose `notes` field holds a plain string — the C5
counterexample record. -/
def c5Record : PyEntries :=
  [("id", .str "1"), ("title", .str "A"), ("status", .str "pending"),
   ("created_at", .str "2024-01-01T00:00:00"), ("priority", .str "low"),
   ("updated_at", .str "2024-01-01T00:00:00"), ("notes", .str "remember the milk"),
   ("tags", .list [.str "a", .str "b"])]

def c5Store0 : Store :=
  { autoBackup := true, tasksFile := Option.none, habitsFile := Option.none,
    lockFile := Option.none, backups := [] }

def c5SaveResult : SaveResult :=
  save_data "tasks" [c5Record] true ⟨true, true, true⟩ c5Store0 "2024-01-02T00:00:00" 1000
    (fun _ => false)

/-- A valid task with list-valued optional fields (and list-valued
`notes`), for the amended C5 witness. -/
def c5GoodRecord : PyEntries :=
  [("id", .str "2"), ("title", .str "B"), ("status", .str "in_progress"),
   ("created_at", .str "2024-01-01T00:00:00"), ("priority", .str "medium"),
   ("updated_at", .str "2024-01-03T00:00:00"), ("tags", .list [.str "a", .str "b"]),
   ("completion_dates", .list []), ("estimated_time", .int 30),
   ("dependencies", .list [.str "2", .int 0]), ("notes", .list [.str "n1"])]

set_option maxRecDepth 40000

/-! Sanity anchors for the hashing pipeline, checked against reference
SHA-256 vectors and CPython outputs. -/

theorem sha256hex_empty :
    sha256hex [] = "e3b0c44298fc1c149afbf4c8996fb92427ae41e4649b934ca495991b7852b855" := by
  decide

theorem sha16_abc : sha16 "abc" = "ba7816bf8f01cfea" := by decide

theorem calculate_checksum_list_anchor :
    calculate_checksum (.list [.dict [("a", .int 1), ("b", .int 2)]]) = "19395e99f9c68334" := by
  decide

theorem calculate_checksum_dict_value_anchor :
    calculate_checksum (.dict [("b", .int 2), ("a", .int 1)]) = "d8497d9d82770a70" := by
  decide

theorem calculate_checksum_dict_anchor :
    calculate_checksum (.dict [("b", .int 1), ("a", .list [.int 1, .str "x", .bool true, .none])]) =
      calculate_checksum (.dict [("a", .list [.int 1, .str "x", .bool true, .none]), ("b", .int 1)]) := by
  decide

/-! ## Claim C1 — restore verification of self-created archives -/

/-- C1 (code bug): the checksum `create_backup` stores is computed over the
backup dict *including* the preliminary `'metadata'` entry, while
`restore_backup` recomputes it over the dict *excluding* `'metadata'`; on
an archive produced by `create_backup` and not modified afterwards the two
digests differ, so the restore is refused — contradicting the claim that
such archives verify and are not refused. -/
theorem C1_self_created_archive_is_refused :
    lookupStr (metadataEntries (create_backup_archive c1InitialData)) "checksum" =
      some (calculate_checksum (.dict c1InitialData)) ∧
    restore_checksum_ok (create_backup_archive c1InitialData) = false := by
  exact ⟨rfl, by decide⟩

/-! ## Claim C2 — corrupt-load recovery -/

/-- C2 (code bug): with five valid tasks in the most recent archive and a
corrupt live tasks file, `load_data` returns `[]` — `_load_from_file`
catches the JSON error itself and returns `[]`, so the backup-recovery
branch of `load_data` is never reached — even though
`_recover_from_backup` would have produced the five tasks. -/
theorem C2_corrupt_load_returns_empty_not_backup :
    first_invalid "tasks" (c2Tasks.map toEntries) = Except.ok Option.none ∧
    (load_data "tasks" true c2Store).records = [] ∧
    recover_from_backup "tasks" c2Store.backups = c2Tasks.map toEntries ∧
    (recover_from_backup "tasks" c2Store.backups).length = 5 := by
  exact ⟨rfl, rfl, rfl, rfl⟩

/-! ## Claim C6 — lock-timeout behaviour of `save_data` -/

/-- C6 (code bug): when `acquire_lock` times out because a live process
holds the token, `save_data` returns failure and leaves the data files
untouched, but its `finally: release_lock()` still removes the other
process's live lock token — contradicting the claim (and the spec's
ownership rule) that the token is not removed by the failing save. -/
theorem C6_failed_acquire_still_removes_foreign_lock :
    c6Result.ok = false ∧
    c6Result.msgs = ["Could not acquire data lock. Please try again."] ∧
    c6Result.store.tasksFile = c6Store.tasksFile ∧
    c6Result.store.habitsFile = c6Store.habitsFile ∧
    c6Result.store.backups = c6Store.backups ∧
    c6Result.store.lockFile = Option.none := by
  exact ⟨rfl, rfl, rfl, rfl, rfl, rfl⟩

/-! ## Association-list lemmas -/

theorem lookupEntry_setKey_self (es : PyEntries) (k : String) (v : PyVal) :
    lookupEntry (setKey es k v) k = some v := by
  induction es with
  | nil => simp [setKey, lookupEntry]
  | cons h t ih =>
    obtain ⟨k', w⟩ := h
    by_cases hk : k' = k <;> simp [setKey, lookupEntry, hk, ih]

theorem lookupEntry_setKey_ne (es : PyEntries) (k k' : String) (v : PyVal) (h : k' ≠ k) :
    lookupEntry (setKey es k' v) k = lookupEntry es k := by
  induction es with
  | nil => simp [setKey, lookupEntry, h]
  | cons hd t ih =>
    obtain ⟨k0, w⟩ := hd
    by_cases hk : k0 = k'
    · subst hk
      simp [setKey, lookupEntry, h]
    · simp only [setKey, if_neg hk, lookupEntry]
      by_cases hk2 : k0 = k
      · simp [hk2]
      · simp [hk2, ih]

/-! ## Claim C3 — what the per-record checksum covers -/

/-- C3 counterexample: on a first save (no previous `checksum`/`version`)
the stamped checksum does not equal the hash of the stored record minus
its checksum field, because the version is incremented only after the
checksum is computed. -/
theorem C3_checksum_claim_fails_on_first_save :
    lookupStr c3Stamped "checksum" = some "5f3d2346d4c1edaf" ∧
    calculate_checksum (.dict (eraseKey c3Stamped "checksum")) = "eaf2e3bba3388c98" ∧
    lookupStr c3Stamped "checksum" ≠
      some (calculate_checksum (.dict (eraseKey c3Stamped "checksum"))) := by
  refine ⟨rfl, rfl, ?_⟩
  decide

/-- C3 amended: the checksum `save_data` stamps is computed over the record
as it stands just before stamping — after the `updated_at` default, with
the *previous* `version` value and any previous `checksum` field included —
and the version stored alongside it is that previous version plus one.  (So
the stored checksum reflects the pre-increment version, not the version as
stored.) -/
theorem C3_checksum_covers_prestamp_record (now : String) (r : PyEntries) (n : Int)
    (hupd : hasKey r "updated_at" = true)
    (hver : lookupEntry r "version" = some (.int n)) :
    lookupStr (stamp_record now r) "checksum" = some (calculate_checksum (.dict r)) ∧
    lookupInt (stamp_record now r) "version" = some (n + 1) := by
  have hvc : lookupEntry (setKey r "checksum" (.str (calculate_checksum (.dict r)))) "version" =
      some (.int n) := by
    rw [lookupEntry_setKey_ne _ _ _ _ (by decide)]
    exact hver
  constructor
  · simp only [stamp_record, hupd, if_pos, lookupStr, hvc]
    rw [lookupEntry_setKey_ne _ _ _ _ (by decide), lookupEntry_setKey_self]
  · simp only [stamp_record, hupd, if_pos, lookupInt, hvc]
    rw [lookupEntry_setKey_self]

theorem C3_checksum_covers_prestamp_record_witness :
    lookupStr (stamp_record "2024-01-02T00:00:00" c3VersionedRecord) "checksum" =
      some (calculate_checksum (.dict c3VersionedRecord)) ∧
    lookupInt (stamp_record "2024-01-02T00:00:00" c3VersionedRecord) "version" = some 4 := by
  exact C3_checksum_covers_prestamp_record "2024-01-02T00:00:00" c3VersionedRecord 3 rfl rfl

/-! ## Sorted-entry lemmas for the canonicalization claim -/

theorem strData_inj {a b : String} (h : a.data = b.data) : a = b := by
  cases a
  cases b
  simp_all

theorem sortEntries_sorted (es : PyEntries) : List.Sorted keyLe (sortEntries es) :=
  List.sorted_insertionSort keyLe es

theorem sortEntries_perm (es : PyEntries) : (sortEntries es).Perm es :=
  List.perm_insertionSort keyLe es

theorem sorted_keyLt_of_sorted_keyLe {l : PyEntries} (hs : List.Sorted keyLe l)
    (hn : (l.map Prod.fst).Nodup) : List.Sorted keyLt l := by
  have hne : l.Pairwise (fun a b : String × PyVal => a.1 ≠ b.1) := List.pairwise_map.mp hn
  exact (hs.and hne).imp
    (fun h => lt_of_le_of_ne h.1 (fun hd => h.2 (strData_inj hd)))

/-- Two entry lists that are permutations of each other with no duplicated
keys have the same key-sorted form (`sorted(d.items())` is canonical). -/
theorem sortEntries_eq_of_perm {es fs : PyEntries} (h : es.Perm fs)
    (hn : (es.map Prod.fst).Nodup) : sortEntries es = sortEntries fs := by
  have hnf : (fs.map Prod.fst).Nodup := ((h.map Prod.fst).nodup_iff).mp hn
  have h1 : (sortEntries es).Perm (sortEntries fs) :=
    (sortEntries_perm es).trans (h.trans (sortEntries_perm fs).symm)
  have hs1 : List.Sorted keyLt (sortEntries es) :=
    sorted_keyLt_of_sorted_keyLe (sortEntries_sorted es)
      (((sortEntries_perm es).map Prod.fst).nodup_iff.mpr hn)
  have hs2 : List.Sorted keyLt (sortEntries fs) :=
    sorted_keyLt_of_sorted_keyLe (sortEntries_sorted fs)
      (((sortEntries_perm fs).map Prod.fst).nodup_iff.mpr hnf)
  exact List.eq_of_perm_of_sorted h1 hs1 hs2

theorem canonE_eq_map (l : PyEntries) : canonE l = l.map (fun p => (p.1, canon p.2)) := by
  induction l with
  | nil => rfl
  | cons h t ih =>
    obtain ⟨k, v⟩ := h
    simp [canonE, ih]

theorem keys_canonE (l : PyEntries) : (canonE l).map Prod.fst = l.map Prod.fst := by
  induction l with
  | nil => rfl
  | cons h t ih =>
    obtain ⟨k, v⟩ := h
    simp [canonE, ih]

/-! ## Claim C4 — checksum canonicalization -/

/-- C4 counterexample: the aggregate-checksum shape — a record *list* — is
hashed through `str(data)`, which preserves dict insertion order, so two
lists with the same logical content (equal canonical forms) get different
digests. -/
theorem C4_list_input_not_canonicalized :
    canon c4List1 = canon c4List2 ∧
    calculate_checksum c4List1 ≠ calculate_checksum c4List2 := by
  exact ⟨rfl, by decide⟩

/-- C4 amended: for *dict* inputs `calculate_checksum` canonicalizes
(`json.dumps(..., sort_keys=True)`): two dicts whose entry lists are
permutations of each other (no duplicate keys) get the same digest.  For
list inputs — the shape `_save_to_file` hashes — the digest goes through
`str(data)` and is order-sensitive, as the counterexample shows. -/
theorem C4_dict_checksum_invariant_under_key_reorder (es fs : PyEntries)
    (hn : (es.map Prod.fst).Nodup) (h : es.Perm fs) :
    calculate_checksum (.dict es) = calculate_checksum (.dict fs) := by
  have hperm : (canonE es).Perm (canonE fs) := by
    rw [canonE_eq_map, canonE_eq_map]
    exact h.map _
  have hnc : ((canonE es).map Prod.fst).Nodup := by
    rw [keys_canonE]
    exact hn
  have hse : sortEntries (canonE es) = sortEntries (canonE fs) :=
    sortEntries_eq_of_perm hperm hnc
  show sha16 (jsonDumps true true (.dict es)) = sha16 (jsonDumps true true (.dict fs))
  unfold jsonDumps
  simp only [if_true, canon, hse]

theorem C4_dict_checksum_invariant_witness :
    calculate_checksum (.dict c4WitnessEs) = calculate_checksum (.dict c4WitnessFs) :=
  C4_dict_checksum_invariant_under_key_reorder c4WitnessEs c4WitnessFs (by decide)
    (List.Perm.swap _ _ _)

/-! ## Claim C7 — validation-gated save -/

/-- C7 counterexample: a batch of three records where exactly one has an
invalid status.  The save aborts with nothing written and exactly one
reported violation message — but that message names only the violated rule
and offending value, not the record: neither the record's id `"t2"` nor
its title `"Beta"` occurs in it, so the violation does not identify the
offending record. -/
theorem C7_violation_does_not_name_the_record :
    c7Result.ok = false ∧
    c7Result.store.tasksFile = Option.none ∧
    c7Result.msgs = ["Task validation failed: Invalid status: bogus"] ∧
    (∀ m ∈ c7Result.msgs, ¬ ("t2".data <:+: m.data) ∧ ¬ ("Beta".data <:+: m.data)) := by
  refine ⟨rfl, rfl, rfl, by decide⟩

/-- C7 amended: with `validate=true` and a free lock, a tasks batch whose
validation loop hits an invalid record makes `save_data` return failure
with the stored file, backups and the caller's records untouched, and
report exactly one message, carrying the first invalid record's violation
list (joined with `"; "`) — without identifying the record itself. -/
theorem C7_invalid_batch_aborts_whole_save (records : List PyEntries) (r : PyEntries)
    (errs : List String) (o : FsOracle) (st : Store) (now : String) (selfPid : Nat)
    (alive : Nat → Bool)
    (hlock : st.lockFile = Option.none)
    (hinv : first_invalid "tasks" records = Except.ok (some (r, errs))) :
    (save_data "tasks" records true o st now selfPid alive).ok = false ∧
    (save_data "tasks" records true o st now selfPid alive).msgs =
      ["Task validation failed: " ++ joinSemi errs] ∧
    (save_data "tasks" records true o st now selfPid alive).store.tasksFile = st.tasksFile ∧
    (save_data "tasks" records true o st now selfPid alive).store.habitsFile = st.habitsFile ∧
    (save_data "tasks" records true o st now selfPid alive).store.backups = st.backups ∧
    (save_data "tasks" records true o st now selfPid alive).records = records := by
  simp [save_data, acquire_lock, hlock, hinv]

theorem C7_invalid_batch_aborts_whole_save_witness :
    (save_data "tasks" [c7Good "t1", c7Bad, c7Good "t3"] true ⟨true, true, true⟩ c7Store
        "2024-01-02T00:00:00" 1000 (fun _ => false)).ok = false ∧
    (save_data "tasks" [c7Good "t1", c7Bad, c7Good "t3"] true ⟨true, true, true⟩ c7Store
        "2024-01-02T00:00:00" 1000 (fun _ => false)).msgs =
      ["Task validation failed: " ++ joinSemi ["Invalid status: bogus"]] ∧
    (save_data "tasks" [c7Good "t1", c7Bad, c7Good "t3"] true ⟨true, true, true⟩ c7Store
        "2024-01-02T00:00:00" 1000 (fun _ => false)).store.tasksFile = c7Store.tasksFile ∧
    (save_data "tasks" [c7Good "t1", c7Bad, c7Good "t3"] true ⟨true, true, true⟩ c7Store
        "2024-01-02T00:00:00" 1000 (fun _ => false)).store.habitsFile = c7Store.habitsFile ∧
    (save_data "tasks" [c7Good "t1", c7Bad, c7Good "t3"] true ⟨true, true, true⟩ c7Store
        "2024-01-02T00:00:00" 1000 (fun _ => false)).store.backups = c7Store.backups ∧
    (save_data "tasks" [c7Good "t1", c7Bad, c7Good "t3"] true ⟨true, true, true⟩ c7Store
        "2024-01-02T00:00:00" 1000 (fun _ => false)).records =
      [c7Good "t1", c7Bad, c7Good "t3"] :=
  C7_invalid_batch_aborts_whole_save [c7Good "t1", c7Bad, c7Good "t3"] c7Bad
    ["Invalid status: bogus"] ⟨true, true, true⟩ c7Store "2024-01-02T00:00:00" 1000
    (fun _ => false) rfl rfl

/-! ## Claim C8 — atomic write failure semantics -/

/-- C8 confirmed: if serialization or the temp-file write fails,
`_save_to_file` signals the failure (re-raise after cleanup), the
temporary sibling is deleted, and the previously visible file is left
untouched; and in every run the visible file is either untouched or — only
when every step including the rename succeeded — replaced wholesale by the
new envelope. -/
theorem C8_atomic_write_failure_semantics (o : FsOracle) (now : String)
    (prev : Option FileContent) (data : List PyEntries) :
    ((o.serializeOk = false ∨ o.writeTempOk = false) →
      (save_to_file o now prev data).raised = true ∧
      (save_to_file o now prev data).temp = Option.none ∧
      (save_to_file o now prev data).file = prev) ∧
    ((save_to_file o now prev data).file = prev ∨
      ((save_to_file o now prev data).raised = false ∧
        (save_to_file o now prev data).file =
          some (.json (fileEnvelope now (data.map prepare_for_json))))) ∧
    (save_to_file o now prev data).temp = Option.none := by
  obtain ⟨s, w, r⟩ := o
  cases s <;> cases w <;> cases r <;> simp [save_to_file]

theorem C8_atomic_write_failure_semantics_witness :
    ((false = false ∨ FsOracle.writeTempOk ⟨false, true, true⟩ = false) →
      (save_to_file ⟨false, true, true⟩ "t" (some .invalid) []).raised = true ∧
      (save_to_file ⟨false, true, true⟩ "t" (some .invalid) []).temp = Option.none ∧
      (save_to_file ⟨false, true, true⟩ "t" (some .invalid) []).file = some .invalid) ∧
    ((save_to_file ⟨false, true, true⟩ "t" (some .invalid) []).file = some .invalid ∨
      ((save_to_file ⟨false, true, true⟩ "t" (some .invalid) []).raised = false ∧
        (save_to_file ⟨false, true, true⟩ "t" (some .invalid) []).file =
          some (.json (fileEnvelope "t" (([] : List PyEntries).map prepare_for_json))))) ∧
    (save_to_file ⟨false, true, true⟩ "t" (some .invalid) []).temp = Option.none := by
  have h := C8_atomic_write_failure_semantics ⟨false, true, true⟩ "t" (some .invalid) []
  exact ⟨fun _ => h.1 (Or.inl rfl), h.2.1, h.2.2⟩

/-! ## Claim C10 — in-place mutation survives a failed write -/

theorem stamp_record_updated_at_absent (now : String) (r : PyEntries)
    (hupd : hasKey r "updated_at" = false) :
    lookupStr (stamp_record now r) "updated_at" = some now := by
  simp only [stamp_record, hupd, Bool.false_eq_true, if_false, lookupStr]
  rw [lookupEntry_setKey_ne _ _ _ _ (by decide), lookupEntry_setKey_ne _ _ _ _ (by decide),
    lookupEntry_setKey_self]

theorem stamp_record_version_increment (now : String) (r : PyEntries) (n : Int)
    (hver : lookupEntry r "version" = some (.int n)) :
    lookupInt (stamp_record now r) "version" = some (n + 1) := by
  by_cases hupd : hasKey r "updated_at" = true
  · have h1 : lookupEntry (setKey r "checksum"
        (PyVal.str (calculate_checksum (PyVal.dict r)))) "version" = some (.int n) := by
      rw [lookupEntry_setKey_ne _ _ _ _ (by decide)]
      exact hver
    simp only [stamp_record, hupd, if_true, lookupInt, h1]
    rw [lookupEntry_setKey_self]
  · have hupd' : hasKey r "updated_at" = false := by simpa using hupd
    have h0 : lookupEntry (setKey r "updated_at" (PyVal.str now)) "version" =
        some (.int n) := by
      rw [lookupEntry_setKey_ne _ _ _ _ (by decide)]
      exact hver
    have h1 : lookupEntry (setKey (setKey r "updated_at" (PyVal.str now)) "checksum"
        (PyVal.str (calculate_checksum (PyVal.dict (setKey r "updated_at" (PyVal.str now))))))
        "version" = some (.int n) := by
      rw [lookupEntry_setKey_ne _ _ _ _ (by decide)]
      exact h0
    simp only [stamp_record, hupd', Bool.false_eq_true, if_false, lookupInt, h1]
    rw [lookupEntry_setKey_self]

/-- C10 confirmed: once past lock acquisition and validation, `save_data`
stamps every record of the caller's list in place (`updated_at` default,
fresh checksum, incremented version); when the write then fails, it
returns failure with the stored file unchanged, yet the caller's in-memory
records remain the stamped ones — the mutations are not rolled back.  The
final conjuncts state what the stamping did to each record: a fresh
`updated_at` exactly when it was absent, and the incremented version. -/
theorem C10_failed_write_keeps_in_place_mutations (records : List PyEntries) (o : FsOracle)
    (st : Store) (now : String) (selfPid : Nat) (alive : Nat → Bool)
    (hlock : st.lockFile = Option.none)
    (hw : o.writeTempOk = false) :
    (save_data "tasks" records false o st now selfPid alive).ok = false ∧
    (save_data "tasks" records false o st now selfPid alive).store.tasksFile = st.tasksFile ∧
    (save_data "tasks" records false o st now selfPid alive).records =
      records.map (stamp_record now) ∧
    (∀ r : PyEntries, hasKey r "updated_at" = false →
      lookupStr (stamp_record now r) "updated_at" = some now) ∧
    (∀ (r : PyEntries) (n : Int), lookupEntry r "version" = some (.int n) →
      lookupInt (stamp_record now r) "version" = some (n + 1)) := by
  obtain ⟨s, w, rn⟩ := o
  subst hw
  refine ⟨?_, ?_, ?_,
    fun r hupd => stamp_record_updated_at_absent now r hupd,
    fun r n hver => stamp_record_version_increment now r n hver⟩
  · cases s <;> simp [save_data, acquire_lock, hlock, save_to_file, setFileIn, getFile]
  · cases s <;> simp [save_data, acquire_lock, hlock, save_to_file, setFileIn, getFile]
  · cases s <;> simp [save_data, acquire_lock, hlock, save_to_file, setFileIn, getFile]

theorem C10_failed_write_keeps_in_place_mutations_witness :
    (save_data "tasks" [c10Record] false ⟨true, false, true⟩ c10Store "2024-01-05T00:00:00" 1000
        (fun _ => false)).ok = false ∧
    (save_data "tasks" [c10Record] false ⟨true, false, true⟩ c10Store "2024-01-05T00:00:00" 1000
        (fun _ => false)).store.tasksFile = c10Store.tasksFile ∧
    (save_data "tasks" [c10Record] false ⟨true, false, true⟩ c10Store "2024-01-05T00:00:00" 1000
        (fun _ => false)).records = [c10Record].map (stamp_record "2024-01-05T00:00:00") ∧
    (∀ r : PyEntries, hasKey r "updated_at" = false →
      lookupStr (stamp_record "2024-01-05T00:00:00" r) "updated_at" =
        some "2024-01-05T00:00:00") ∧
    (∀ (r : PyEntries) (n : Int), lookupEntry r "version" = some (.int n) →
      lookupInt (stamp_record "2024-01-05T00:00:00" r) "version" = some (n + 1)) :=
  C10_failed_write_keeps_in_place_mutations [c10Record] ⟨true, false, true⟩ c10Store
    "2024-01-05T00:00:00" 1000 (fun _ => false) rfl rfl

/-! ## Claim C9 — retention invariant of `cleanup_old_backups` -/

/-- C9 confirmed, for `keep_count=20`, `keep_days=30`: after cleanup the
automatic archives never exceed 20 (at most the newest 10 survive a
cleanup that deletes at all), every deleted manual archive is older than
30 days (so none younger is ever deleted), at least
`min (number of manual archives) (keep_count/2 = 10)` manual archives are
kept regardless of age, nothing at all is deleted while the total is
within 20, and among automatic archives the oldest are deleted first
(every deleted automatic archive is no newer than every kept one). -/
theorem C9_retention_invariant (now : Nat) (archives : List BArch) :
    (cleanup_old_backups 20 30 now archives).keptAuto.length ≤ 20 ∧
    (∀ a ∈ (cleanup_old_backups 20 30 now archives).deletedManual,
      (now - a.mtime) / 86400 > 30) ∧
    min (archives.filter isManualArch).length 10 ≤
      (cleanup_old_backups 20 30 now archives).keptManual.length ∧
    (archives.length ≤ 20 →
      (cleanup_old_backups 20 30 now archives).deletedManual = [] ∧
      (cleanup_old_backups 20 30 now archives).deletedAuto = []) ∧
    (∀ d ∈ (cleanup_old_backups 20 30 now archives).deletedAuto,
      ∀ k ∈ (cleanup_old_backups 20 30 now archives).keptAuto, d.mtime ≤ k.mtime) := by
  by_cases hlen : archives.length ≤ 20
  · simp only [cleanup_old_backups, if_pos hlen]
    refine ⟨?_, by simp, ?_, by simp, by simp⟩
    · exact le_trans (List.length_filter_le _ _) hlen
    · exact min_le_left _ _
  · simp only [cleanup_old_backups, if_neg hlen]
    have hmax : max 5 (20 / 2) = 10 := by decide
    refine ⟨?_, ?_, ?_, fun h => absurd h hlen, ?_⟩
    · calc (List.take (20 - max 5 (20 / 2))
            (sortNewestFirst (archives.filter (fun a => !isManualArch a)))).length
          ≤ 20 - max 5 (20 / 2) := List.length_take_le _ _
        _ ≤ 20 := by omega
    · intro a ha
      have := (List.mem_filter.mp ha).2
      exact of_decide_eq_true this
    · have hperm : (sortNewestFirst (archives.filter isManualArch)).length =
          (archives.filter isManualArch).length :=
        (List.perm_insertionSort mtimeGe _).length_eq
      rw [List.length_append, List.length_take, hperm, hmax]
      omega
    · intro d hd k hk
      have hsorted : List.Sorted mtimeGe
          (sortNewestFirst (archives.filter (fun a => !isManualArch a))) :=
        List.sorted_insertionSort _ _
      have hpw := (List.pairwise_append.mp
        (by rw [List.take_append_drop]
            exact hsorted)).2.2 k hk d hd
      exact hpw

theorem C9_retention_invariant_witness :
    (cleanup_old_backups 20 30 1000000000
        [⟨true, "manual", 999⟩, ⟨true, "auto", 998⟩, ⟨false, "manual", 5⟩]).keptAuto.length ≤ 20 ∧
    (∀ a ∈ (cleanup_old_backups 20 30 1000000000
        [⟨true, "manual", 999⟩, ⟨true, "auto", 998⟩, ⟨false, "manual", 5⟩]).deletedManual,
      (1000000000 - a.mtime) / 86400 > 30) ∧
    min ([⟨true, "manual", 999⟩, ⟨true, "auto", 998⟩,
        (⟨false, "manual", 5⟩ : BArch)].filter isManualArch).length 10 ≤
      (cleanup_old_backups 20 30 1000000000
        [⟨true, "manual", 999⟩, ⟨true, "auto", 998⟩, ⟨false, "manual", 5⟩]).keptManual.length ∧
    ([⟨true, "manual", 999⟩, ⟨true, "auto", 998⟩, (⟨false, "manual", 5⟩ : BArch)].length ≤ 20 →
      (cleanup_old_backups 20 30 1000000000
        [⟨true, "manual", 999⟩, ⟨true, "auto", 998⟩, ⟨false, "manual", 5⟩]).deletedManual = [] ∧
      (cleanup_old_backups 20 30 1000000000
        [⟨true, "manual", 999⟩, ⟨true, "auto", 998⟩, ⟨false, "manual", 5⟩]).deletedAuto = []) ∧
    (∀ d ∈ (cleanup_old_backups 20 30 1000000000
        [⟨true, "manual", 999⟩, ⟨true, "auto", 998⟩, ⟨false, "manual", 5⟩]).deletedAuto,
      ∀ k ∈ (cleanup_old_backups 20 30 1000000000
        [⟨true, "manual", 999⟩, ⟨true, "auto", 998⟩, ⟨false, "manual", 5⟩]).keptAuto,
      d.mtime ≤ k.mtime) :=
  C9_retention_invariant 1000000000
    [⟨true, "manual", 999⟩, ⟨true, "auto", 998⟩, ⟨false, "manual", 5⟩]

/-! ## Claim C5 — round trip, counterexample -/

/-- C5 counterexample: a Record-Validator-valid task whose optional
`notes` field holds a plain string is not round-tripped: the save
succeeds, but on load `_process_loaded_item` feeds the string to
`json.loads`, which fails, and the field comes back as `[]` — while a
`tags` list survives.  So `Load(Save(R))` differs from `R` beyond the
added version/checksum fields. -/
theorem C5_string_notes_destroyed_by_roundtrip :
    c5SaveResult.ok = true ∧
    lookupEntry c5Record "notes" = some (.str "remember the milk") ∧
    (load_data "tasks" true c5SaveResult.store).records.map (fun e => lookupEntry e "notes") =
      [some (.list [])] ∧
    (load_data "tasks" true c5SaveResult.store).records.map (fun e => lookupEntry e "tags") =
      [some (.list [.str "a", .str "b"])] := by
  exact ⟨rfl, rfl, rfl, rfl⟩

/-! ## Parser correctness on serializer output (towards claim C5) -/

theorem strMkData (s : String) : String.mk s.data = s := by
  cases s
  rfl

theorem skipWs_not_ws {c : Char} (l : List Char)
    (h : (c = ' ' || c = '\n' || c = '\t' || c = '\r') = false) :
    skipWs (c :: l) = c :: l := by
  simp only [skipWs, h, Bool.false_eq_true, if_false]

theorem skipWs_space (l : List Char) : skipWs (' ' :: l) = skipWs l := by
  simp [skipWs]

theorem parseValue_skip_space (g : Nat) (cs : List Char) :
    parseValue g (' ' :: cs) = parseValue g cs := by
  cases g with
  | zero => rfl
  | succ f => simp only [parseValue, skipWs_space]

theorem parseItems_skip_space (g : Nat) (cs : List Char) :
    parseItems g (' ' :: cs) = parseItems g cs := by
  cases g with
  | zero => rfl
  | succ f => simp only [parseItems, parseValue_skip_space]

theorem ne_of_isDigit {c d : Char} (h : c.isDigit = true) (hd : d.isDigit = false) : c ≠ d := by
  intro heq
  rw [heq, hd] at h
  exact Bool.false_ne_true h

theorem not_ws_of_isDigit {c : Char} (h : c.isDigit = true) :
    (c = ' ' || c = '\n' || c = '\t' || c = '\r') = false := by
  have h1 : c ≠ ' ' := ne_of_isDigit h (by decide)
  have h2 : c ≠ '\n' := ne_of_isDigit h (by decide)
  have h3 : c ≠ '\t' := ne_of_isDigit h (by decide)
  have h4 : c ≠ '\r' := ne_of_isDigit h (by decide)
  simp [h1, h2, h3, h4]

/-! Decimal digits. -/

theorem hexDigit_isDigit {m : Nat} (h : m < 10) : (hexDigit m).isDigit = true := by
  interval_cases m <;> decide

theorem hexDigit_ne_zero {m : Nat} (h1 : 1 ≤ m) (h : m < 10) : hexDigit m ≠ '0' := by
  interval_cases m <;> decide

theorem digitVal_hexDigit {m : Nat} (h : m < 10) : digitVal (hexDigit m) = m := by
  interval_cases m <;> decide

theorem digitsVal_append (l : List Char) (c : Char) :
    digitsVal (l ++ [c]) = digitsVal l * 10 + digitVal c := by
  simp [digitsVal, List.foldl_append]

theorem natDigitChars_spec : ∀ f n, n < f →
    natDigitChars f n ≠ [] ∧ (∀ c ∈ natDigitChars f n, c.isDigit = true) ∧
      digitsVal (natDigitChars f n) = n := by
  intro f
  induction f with
  | zero => intro n h; omega
  | succ f ih =>
    intro n h
    by_cases h10 : n < 10
    · refine ⟨by simp [natDigitChars, h10], ?_, ?_⟩
      · intro c hc
        simp [natDigitChars, h10] at hc
        rw [hc]
        exact hexDigit_isDigit h10
      · simp [natDigitChars, h10, digitsVal, digitVal_hexDigit h10]
    · have hlt : n / 10 < f := by omega
      obtain ⟨hne, hall, hval⟩ := ih (n / 10) hlt
      simp only [natDigitChars, if_neg h10]
      refine ⟨by simp, ?_, ?_⟩
      · intro c hc
        rcases List.mem_append.mp hc with hc | hc
        · exact hall c hc
        · simp at hc
          rw [hc]
          exact hexDigit_isDigit (by omega)
      · rw [digitsVal_append, hval, digitVal_hexDigit (by omega)]
        omega

theorem natDigitChars_head_ne_zero : ∀ f n, n < f → 1 ≤ n → ∀ c t,
    natDigitChars f n = c :: t → c ≠ '0' := by
  intro f
  induction f with
  | zero => intro n h; omega
  | succ f ih =>
    intro n h h1 c t heq
    by_cases h10 : n < 10
    · simp [natDigitChars, h10] at heq
      rw [← heq.1]
      exact hexDigit_ne_zero h1 h10
    · have hlt : n / 10 < f := by omega
      obtain ⟨hne, _, _⟩ := natDigitChars_spec f (n / 10) hlt
      obtain ⟨d, u, hdu⟩ : ∃ d u, natDigitChars f (n / 10) = d :: u := by
        cases hh : natDigitChars f (n / 10) with
        | nil => exact absurd hh hne
        | cons d u => exact ⟨d, u, rfl⟩
      simp only [natDigitChars, if_neg h10, hdu, List.cons_append, List.cons.injEq] at heq
      rw [← heq.1]
      exact ih (n / 10) hlt (by omega) d u hdu

theorem takeWhile_append (p : Char → Bool) : ∀ (l r : List Char),
    (∀ c ∈ l, p c = true) → (∀ c t, r = c :: t → p c = false) →
    (l ++ r).takeWhile p = l ∧ (l ++ r).dropWhile p = r := by
  intro l
  induction l with
  | nil =>
    intro r _ hr
    cases r with
    | nil => simp
    | cons c t => simp [List.takeWhile, List.dropWhile, hr c t rfl]
  | cons a l ih =>
    intro r hl hr
    have ha := hl a (by simp)
    have := ih r (fun c hc => hl c (by simp [hc])) hr
    simp [List.takeWhile, List.dropWhile, ha, this.1, this.2]

theorem parseNatTok_digits (n : Nat) (rest : List Char)
    (hstop : ∀ c t, rest = c :: t → c.isDigit = false) :
    parseNatTok (natDigitChars (n + 1) n ++ rest) = some (n, rest) := by
  obtain ⟨hne, hall, hval⟩ := natDigitChars_spec (n + 1) n (by omega)
  obtain ⟨c, t, heq⟩ : ∃ c t, natDigitChars (n + 1) n = c :: t := by
    cases hh : natDigitChars (n + 1) n with
    | nil => exact absurd hh hne
    | cons c t => exact ⟨c, t, rfl⟩
  by_cases h0 : n = 0
  · subst h0
    have : natDigitChars 1 0 = ['0'] := by decide
    rw [this]
    simp [parseNatTok]
  · have hc0 : c ≠ '0' := natDigitChars_head_ne_zero (n + 1) n (by omega) (by omega) c t heq
    have hcd : c.isDigit = true := hall c (by rw [heq]; simp)
    have htd : ∀ d ∈ t, d.isDigit = true := fun d hd => hall d (by rw [heq]; simp [hd])
    have htw := takeWhile_append Char.isDigit t rest htd hstop
    rw [heq] at hval ⊢
    simp only [List.cons_append, parseNatTok, if_neg hc0, hcd, if_true, htw.1, htw.2]
    rw [hval]

theorem floatFollows_of_numStop {rest : List Char} (h : numStopB rest = true) :
    floatFollows rest = false := by
  cases rest with
  | nil => rfl
  | cons c t =>
    simp [numStopB] at h
    obtain ⟨⟨⟨_, h2⟩, h3⟩, h4⟩ := h
    simp [floatFollows, h2, h3, h4]

theorem numStop_head_not_digit {rest : List Char} (h : numStopB rest = true) :
    ∀ c t, rest = c :: t → c.isDigit = false := by
  intro c t heq
  subst heq
  simp [numStopB] at h
  exact h.1.1.1

theorem intChars_head (n : Int) :
    ∃ c t, intChars n = c :: t ∧ (c = '-' ∨ c.isDigit = true) := by
  cases n with
  | ofNat m =>
    obtain ⟨hne, hall, _⟩ := natDigitChars_spec (m + 1) m (by omega)
    cases hh : natDigitChars (m + 1) m with
    | nil => exact absurd hh hne
    | cons c t =>
      exact ⟨c, t, hh, Or.inr (hall c (by rw [hh]; simp))⟩
  | negSucc m => exact ⟨'-', _, rfl, Or.inl rfl⟩

theorem parseNum_intChars (n : Int) (rest : List Char) (hstop : numStopB rest = true) :
    parseNum (intChars n ++ rest) = some (.int n, rest) := by
  cases n with
  | ofNat m =>
    have heq0 : intChars (Int.ofNat m) = natDigitChars (m + 1) m := rfl
    obtain ⟨hne, hall, _⟩ := natDigitChars_spec (m + 1) m (by omega)
    obtain ⟨c, t, hct⟩ : ∃ c t, natDigitChars (m + 1) m = c :: t := by
      cases hh : natDigitChars (m + 1) m with
      | nil => exact absurd hh hne
      | cons c t => exact ⟨c, t, rfl⟩
    have hcd : c.isDigit = true := hall c (by rw [hct]; simp)
    have hcm : c ≠ '-' := ne_of_isDigit hcd (by decide)
    rw [heq0, hct]
    simp only [List.cons_append, parseNum, if_neg hcm]
    rw [show (c :: (t ++ rest)) = natDigitChars (m + 1) m ++ rest by
      rw [hct, List.cons_append]]
    rw [parseNatTok_digits m rest (numStop_head_not_digit hstop)]
    simp [floatFollows_of_numStop hstop]
  | negSucc m =>
    show parseNum ('-' :: (natDigitChars (m + 2) (m + 1) ++ rest)) = _
    simp only [parseNum, if_pos rfl]
    rw [show m + 2 = (m + 1) + 1 from rfl,
      parseNatTok_digits (m + 1) rest (numStop_head_not_digit hstop)]
    simp only [floatFollows_of_numStop hstop, Bool.false_eq_true, if_false, if_true,
      Option.some.injEq, Prod.mk.injEq, PyVal.int.injEq]
    exact ⟨by rw [Int.negSucc_eq]; push_cast; ring, trivial⟩

/-! JSON string literals of plain characters. -/

theorem plainCharB_spec {c : Char} (h : plainCharB c = true) :
    c ≠ '"' ∧ c ≠ '\\' ∧ 0x20 ≤ c.toNat ∧ c.toNat ≤ 0x7e := by
  simp [plainCharB] at h
  exact ⟨h.1.1.1, h.1.1.2, h.1.2, h.2⟩

theorem jsonEscChar_plain {c : Char} (h : plainCharB c = true) : jsonEscChar true c = [c] := by
  obtain ⟨h1, h2, h3, h4⟩ := plainCharB_spec h
  have hn : c ≠ '\n' := by
    intro he
    rw [he] at h3
    exact absurd h3 (by decide)
  have ht : c ≠ '\t' := by
    intro he
    rw [he] at h3
    exact absurd h3 (by decide)
  have hr : c ≠ '\r' := by
    intro he
    rw [he] at h3
    exact absurd h3 (by decide)
  have h8 : ¬ c.toNat = 8 := by omega
  have h12 : ¬ c.toNat = 12 := by omega
  have hlt : ¬ c.toNat < 0x20 := by omega
  have hgt : ¬ c.toNat > 0x7e := by omega
  simp [jsonEscChar, h1, h2, hn, ht, hr, h8, h12, hlt, hgt]

theorem flatMap_esc_plain (s : List Char) (h : ∀ c ∈ s, plainCharB c = true) :
    s.flatMap (jsonEscChar true) = s := by
  induction s with
  | nil => rfl
  | cons c t ih =>
    simp only [List.flatMap_cons, jsonEscChar_plain (h c (by simp)),
      ih (fun d hd => h d (by simp [hd]))]
    rfl

theorem parseJStrAux_plain : ∀ (s acc rest : List Char), (∀ c ∈ s, plainCharB c = true) →
    parseJStrAux acc (s ++ '"' :: rest) = some (String.mk (acc.reverse ++ s), rest) := by
  intro s
  induction s with
  | nil =>
    intro acc rest _
    simp [parseJStrAux]
  | cons c s ih =>
    intro acc rest h
    obtain ⟨h1, h2, h3, _⟩ := plainCharB_spec (h c (by simp))
    have hlt : ¬ c.toNat < 0x20 := by omega
    simp only [List.cons_append, parseJStrAux, if_neg h1, if_neg h2, if_neg hlt,
      List.append_eq]
    rw [ih (c :: acc) rest (fun d hd => h d (by simp [hd]))]
    simp

/-! Head characters of serialized values. -/

theorem dumpVal_head (v : PyVal) (hn : niceValB v = true) :
    ∃ c t, dumpVal true v = c :: t ∧
      (c = '"' ∨ c = '[' ∨ c = 't' ∨ c = 'f' ∨ c = 'n' ∨ c = '-' ∨ c.isDigit = true) := by
  cases v with
  | str s => exact ⟨'"', _, rfl, Or.inl rfl⟩
  | int n =>
    obtain ⟨c, t, heq, hc⟩ := intChars_head n
    exact ⟨c, t, by simp [dumpVal, heq], by tauto⟩
  | bool b =>
    cases b
    · exact ⟨'f', _, rfl, by tauto⟩
    · exact ⟨'t', _, rfl, by tauto⟩
  | none => exact ⟨'n', _, rfl, by tauto⟩
  | list xs => exact ⟨'[', dumpList true xs ++ [']'], by simp [dumpVal], by tauto⟩
  | dict es => exact absurd hn (by simp [niceValB])

/-- Every possible head character of a serialized value is not whitespace
and is not one of the structural delimiters `]` / `,` / `:` that the
surrounding parser contexts test first. -/
theorem dumpVal_head_facts {c : Char}
    (hc : c = '"' ∨ c = '[' ∨ c = 't' ∨ c = 'f' ∨ c = 'n' ∨ c = '-' ∨ c.isDigit = true) :
    (c = ' ' || c = '\n' || c = '\t' || c = '\r') = false ∧ c ≠ ']' ∧ c ≠ ',' := by
  rcases hc with rfl | rfl | rfl | rfl | rfl | rfl | hd
  · exact ⟨by decide, by decide, by decide⟩
  · exact ⟨by decide, by decide, by decide⟩
  · exact ⟨by decide, by decide, by decide⟩
  · exact ⟨by decide, by decide, by decide⟩
  · exact ⟨by decide, by decide, by decide⟩
  · exact ⟨by decide, by decide, by decide⟩
  · exact ⟨not_ws_of_isDigit hd, ne_of_isDigit hd (by decide), ne_of_isDigit hd (by decide)⟩

theorem pvSize_pos : ∀ v : PyVal, 1 ≤ pvSize v := by
  intro v
  cases v <;> simp [pvSize]

theorem pvSizeL_pos : ∀ xs : List PyVal, 1 ≤ pvSizeL xs := by
  intro xs
  cases xs with
  | nil => simp [pvSizeL]
  | cons x t =>
    have := pvSize_pos x
    simp only [pvSizeL]
    omega

theorem niceListB_cons {x : PyVal} {t : List PyVal} (h : niceListB (x :: t) = true) :
    niceValB x = true ∧ niceListB t = true := by
  simpa [niceListB, Bool.and_eq_true] using h

theorem parseValue_bracket (f : Nat) (rest2 : List Char) (c2 : Char) (r2 : List Char)
    (h : skipWs rest2 = c2 :: r2) :
    parseValue (f + 1) ('[' :: rest2) =
      (if c2 = ']' then some (PyVal.list [], r2)
       else match parseItems f (c2 :: r2) with
            | some (xs, r3) => some (PyVal.list xs, r3)
            | none => none) := by
  simp [parseValue, skipWs, h]

/-- The parser inverts the serializer on `nice` values: parsing the
serialized form followed by any non-number-extending remainder yields the
value and the remainder.  Stated together with the corresponding fact for
array element lists, by strong induction on the parser fuel. -/
theorem parse_dumpVal : ∀ g : Nat,
    (∀ (v : PyVal) (rest : List Char), niceValB v = true → pvSize v ≤ g →
      numStopB rest = true →
      parseValue g (dumpVal true v ++ rest) = some (v, rest)) ∧
    (∀ (xs : List PyVal) (rest : List Char), niceListB xs = true → xs ≠ [] →
      pvSizeL xs ≤ g →
      parseItems g (dumpList true xs ++ ']' :: rest) = some (xs, rest)) := by
  intro g
  induction g using Nat.strong_induction_on with
  | _ g IH =>
  constructor
  · intro v rest hn hsz hstop
    obtain ⟨f, rfl⟩ : ∃ f, g = f + 1 := ⟨g - 1, by have := pvSize_pos v; omega⟩
    cases v with
    | str s =>
      have hplain : ∀ c ∈ s.data, plainCharB c = true := by
        simpa [niceValB, List.all_eq_true] using hn
      have hd : dumpVal true (PyVal.str s) ++ rest = '"' :: (s.data ++ '"' :: rest) := by
        simp [dumpVal, jsonQuoteC, flatMap_esc_plain s.data hplain]
      rw [hd]
      simp only [parseValue]
      rw [skipWs_not_ws _ (by decide)]
      simp only [if_pos]
      rw [parseJStrAux_plain s.data [] rest hplain]
      simp [strMkData]
    | int n =>
      obtain ⟨c, t, heq, hc⟩ := intChars_head n
      have hfacts := dumpVal_head_facts (by tauto :
        c = '"' ∨ c = '[' ∨ c = 't' ∨ c = 'f' ∨ c = 'n' ∨ c = '-' ∨ c.isDigit = true)
      have hne : c ≠ '"' ∧ c ≠ '[' ∧ c ≠ '\x7b' ∧ c ≠ 't' ∧ c ≠ 'f' ∧ c ≠ 'n' := by
        rcases hc with rfl | hd
        · refine ⟨by decide, by decide, by decide, by decide, by decide, by decide⟩
        · exact ⟨ne_of_isDigit hd (by decide), ne_of_isDigit hd (by decide),
            ne_of_isDigit hd (by decide), ne_of_isDigit hd (by decide),
            ne_of_isDigit hd (by decide), ne_of_isDigit hd (by decide)⟩
      have hd : dumpVal true (PyVal.int n) ++ rest = c :: (t ++ rest) := by
        simp [dumpVal, heq]
      rw [hd]
      simp only [parseValue]
      rw [skipWs_not_ws _ hfacts.1]
      simp only [if_neg hne.1, if_neg hne.2.1, if_neg hne.2.2.1, if_neg hne.2.2.2.1,
        if_neg hne.2.2.2.2.1, if_neg hne.2.2.2.2.2]
      rw [show c :: (t ++ rest) = intChars n ++ rest by rw [heq, List.cons_append]]
      exact parseNum_intChars n rest hstop
    | bool b =>
      cases b
      · have hd : dumpVal true (PyVal.bool false) ++ rest =
            'f' :: ('a' :: 'l' :: 's' :: 'e' :: rest) := by simp [dumpVal]
        rw [hd]
        simp only [parseValue]
        rw [skipWs_not_ws _ (by decide)]
        simp [if_neg]
      · have hd : dumpVal true (PyVal.bool true) ++ rest =
            't' :: ('r' :: 'u' :: 'e' :: rest) := by simp [dumpVal]
        rw [hd]
        simp only [parseValue]
        rw [skipWs_not_ws _ (by decide)]
        simp [if_neg]
    | none =>
      have hd : dumpVal true PyVal.none ++ rest = 'n' :: ('u' :: 'l' :: 'l' :: rest) := by
        simp [dumpVal]
      rw [hd]
      simp only [parseValue]
      rw [skipWs_not_ws _ (by decide)]
      simp [if_neg]
    | dict es => exact absurd hn (by simp [niceValB])
    | list xs =>
      cases xs with
      | nil =>
        have hd : dumpVal true (PyVal.list []) ++ rest = '[' :: (']' :: rest) := by
          simp [dumpVal, dumpList]
        rw [hd]
        rw [parseValue_bracket f _ ']' rest (skipWs_not_ws _ (by decide))]
        simp
      | cons x t =>
        have hnl : niceListB (x :: t) = true := by simpa [niceValB] using hn
        obtain ⟨c2, t2, heq2, hc2⟩ := dumpVal_head x (niceListB_cons hnl).1
        have hfacts2 := dumpVal_head_facts hc2
        have hdl : dumpList true (x :: t) =
            dumpVal true x ++ (if t.isEmpty then [] else ',' :: ' ' :: dumpList true t) := by
          cases t <;> simp [dumpList]
        have hd : dumpVal true (PyVal.list (x :: t)) ++ rest =
            '[' :: (dumpList true (x :: t) ++ ']' :: rest) := by
          simp [dumpVal]
        have hhead : dumpList true (x :: t) ++ ']' :: rest =
            c2 :: (t2 ++ (if t.isEmpty then [] else ',' :: ' ' :: dumpList true t) ++
              ']' :: rest) := by
          rw [hdl, heq2]
          simp [List.append_assoc]
        have hsk : skipWs (dumpList true (x :: t) ++ ']' :: rest) =
            c2 :: (t2 ++ (if t.isEmpty then [] else ',' :: ' ' :: dumpList true t) ++
              ']' :: rest) := by
          rw [hhead]
          exact skipWs_not_ws _ hfacts2.1
        rw [hd]
        rw [parseValue_bracket f _ c2 _ hsk]
        rw [if_neg hfacts2.2.1]
        rw [← hhead]
        have hq := (IH f (by omega)).2 (x :: t) rest hnl (by simp)
          (by simp only [pvSize] at hsz; omega)
        rw [hq]
  · intro xs rest hn hne hsz
    obtain ⟨f, rfl⟩ : ∃ f, g = f + 1 := ⟨g - 1, by have := pvSizeL_pos xs; omega⟩
    cases xs with
    | nil => exact absurd rfl hne
    | cons x t =>
      obtain ⟨hnx, hnt⟩ := niceListB_cons hn
      have hszx : pvSize x ≤ f := by
        have := pvSizeL_pos t
        simp only [pvSizeL] at hsz
        omega
      cases t with
      | nil =>
        have hd : dumpList true [x] ++ ']' :: rest = dumpVal true x ++ ']' :: rest := by
          simp [dumpList]
        rw [hd]
        simp only [parseItems]
        rw [(IH f (by omega)).1 x (']' :: rest) hnx hszx (by rfl)]
        simp [skipWs]
      | cons y t' =>
        have hd : dumpList true (x :: y :: t') ++ ']' :: rest =
            dumpVal true x ++ (',' :: (' ' :: (dumpList true (y :: t') ++ ']' :: rest))) := by
          simp [dumpList]
        rw [hd]
        simp only [parseItems]
        rw [(IH f (by omega)).1 x (',' :: (' ' :: (dumpList true (y :: t') ++ ']' :: rest)))
          hnx hszx (by rfl)]
        have hszt : pvSizeL (y :: t') ≤ f := by
          have := pvSize_pos x
          simp only [pvSizeL] at hsz ⊢
          omega
        have hrec : parseItems f (' ' :: (dumpList true (y :: t') ++ ']' :: rest)) =
            some (y :: t', rest) := by
          rw [parseItems_skip_space]
          exact (IH f (by omega)).2 (y :: t') rest hnt (by simp) hszt
        simp [skipWs, hrec]

theorem dump_len : ∀ g : Nat,
    (∀ (ea : Bool) (v : PyVal), niceValB v = true → pvSize v ≤ g →
      pvSize v ≤ (dumpVal ea v).length) ∧
    (∀ (ea : Bool) (xs : List PyVal), niceListB xs = true → pvSizeL xs ≤ g →
      pvSizeL xs ≤ (dumpList ea xs).length + 1) := by
  intro g
  induction g using Nat.strong_induction_on with
  | _ g IH =>
  constructor
  · intro ea v hn hsz
    cases v with
    | str s => simp [dumpVal, jsonQuoteC, pvSize]
    | int n =>
      obtain ⟨c, t, heq, _⟩ := intChars_head n
      simp [dumpVal, heq, pvSize]
    | bool b => cases b <;> simp [dumpVal, pvSize]
    | none => simp [dumpVal, pvSize]
    | dict es => exact absurd hn (by simp [niceValB])
    | list xs =>
      have hpos := pvSizeL_pos xs
      have hszl : pvSizeL xs ≤ g - 1 := by simp only [pvSize] at hsz; omega
      have h := (IH (g - 1) (by simp only [pvSize] at hsz; omega)).2 ea xs
        (by simpa [niceValB] using hn) hszl
      simp only [dumpVal, pvSize, List.length_cons, List.length_append, List.length_singleton]
      omega
  · intro ea xs hn hsz
    cases xs with
    | nil => simp [dumpList, pvSizeL]
    | cons x t =>
      obtain ⟨hnx, hnt⟩ := niceListB_cons hn
      have hpx := pvSize_pos x
      have hpt := pvSizeL_pos t
      have hlt : g - 1 < g := by simp only [pvSizeL] at hsz; omega
      have hx := (IH (g - 1) hlt).1 ea x hnx (by simp only [pvSizeL] at hsz; omega)
      have ht := (IH (g - 1) hlt).2 ea t hnt (by simp only [pvSizeL] at hsz; omega)
      cases t with
      | nil =>
        simp only [dumpList, pvSizeL]
        omega
      | cons y t' =>
        simp only [dumpList, pvSizeL, List.length_append, List.length_cons] at *
        omega

theorem jsonLoads_dump (v : PyVal) (hn : niceValB v = true) :
    jsonLoads (jsonDumps false true v) = some v := by
  have hlen : pvSize v ≤ (dumpVal true v).length + 1 := by
    have := (dump_len (pvSize v)).1 true v hn le_rfl
    omega
  have h := (parse_dumpVal ((dumpVal true v).length + 1)).1 v [] hn hlen (by rfl)
  rw [List.append_nil] at h
  simp only [jsonLoads, jsonDumps, Bool.false_eq_true, if_false]
  rw [show (String.mk (dumpVal true v)).length = (dumpVal true v).length from rfl] at *
  rw [h]
  simp [skipWs]

/-! ## The record pipeline inverts itself on good records (claim C5) -/

/-- The per-value transform of `_prepare_for_json` (keys are untouched). -/
def prepV (k : String) : PyVal → PyVal
  | .list xs => if jsonStringFields.contains k then
        .str (if xs.isEmpty then "[]" else jsonDumps false true (.list xs))
      else .list xs
  | .dict es => .str (jsonDumps false true (.dict es))
  | v => v

theorem prepare_eq_map (r : PyEntries) :
    prepare_for_json r = r.map (fun kv => (kv.1, prepV kv.1 kv.2)) := by
  simp only [prepare_for_json]
  apply List.map_congr_left
  intro kv _
  obtain ⟨k, v⟩ := kv
  cases v <;> rfl

theorem lookupEntry_map_val (f : String → PyVal → PyVal) (r : PyEntries) (k : String) :
    lookupEntry (r.map (fun kv => (kv.1, f kv.1 kv.2))) k = (lookupEntry r k).map (f k) := by
  induction r with
  | nil => rfl
  | cons kv t ih =>
    obtain ⟨k', v⟩ := kv
    by_cases h : k' = k
    · subst h
      simp [lookupEntry]
    · simp [lookupEntry, h, ih]

theorem hasKey_of_lookup {es : PyEntries} {k : String} {v : PyVal}
    (h : lookupEntry es k = some v) : hasKey es k = true := by
  induction es with
  | nil => simp [lookupEntry] at h
  | cons kv t ih =>
    obtain ⟨k', w⟩ := kv
    by_cases hk : k' = k
    · simp [hasKey, hk]
    · simp only [lookupEntry, if_neg hk] at h
      simp [hasKey, hk, ih h]

theorem lookup_mem {es : PyEntries} {k : String} {v : PyVal}
    (h : lookupEntry es k = some v) : (k, v) ∈ es := by
  induction es with
  | nil => simp [lookupEntry] at h
  | cons kv t ih =>
    obtain ⟨k', w⟩ := kv
    by_cases hk : k' = k
    · subst hk
      simp [lookupEntry] at h
      subst h
      exact List.mem_cons_self _ _
    · simp only [lookupEntry, if_neg hk] at h
      exact List.mem_cons_of_mem _ (ih h)

theorem lookup_none_of_not_mem {es : PyEntries} {k : String}
    (h : k ∉ es.map Prod.fst) : lookupEntry es k = Option.none := by
  induction es with
  | nil => rfl
  | cons kv t ih =>
    obtain ⟨k', w⟩ := kv
    simp only [List.map_cons, List.mem_cons, not_or] at h
    have hne : ¬ k' = k := by
      intro hh
      exact h.1 hh.symm
    simp only [lookupEntry, if_neg hne]
    exact ih h.2

theorem keys_setKey_of_hasKey (es : PyEntries) (k : String) (v : PyVal)
    (h : hasKey es k = true) :
    (setKey es k v).map Prod.fst = es.map Prod.fst := by
  induction es with
  | nil => simp [hasKey] at h
  | cons kv t ih =>
    obtain ⟨k', w⟩ := kv
    by_cases hk : k' = k
    · subst hk
      simp [setKey]
    · simp only [hasKey, if_neg hk] at h
      simp [setKey, hk, ih h]

theorem lookup_processField_ne (it : PyEntries) (f k : String) (h : k ≠ f) :
    lookupEntry (processField it f) k = lookupEntry it k := by
  unfold processField
  cases hl : lookupEntry it f with
  | none => rfl
  | some w =>
    cases w with
    | str s => exact lookupEntry_setKey_ne it k f _ (Ne.symm h)
    | int n => rfl
    | bool b => rfl
    | none => rfl
    | list xs => rfl
    | dict es => rfl

theorem keys_processField (it : PyEntries) (f : String) :
    (processField it f).map Prod.fst = it.map Prod.fst := by
  unfold processField
  cases hl : lookupEntry it f with
  | none => rfl
  | some w =>
    cases w with
    | str s => exact keys_setKey_of_hasKey it f _ (hasKey_of_lookup hl)
    | int n => rfl
    | bool b => rfl
    | none => rfl
    | list xs => rfl
    | dict es => rfl

theorem lookup_processField_self (it : PyEntries) (f : String) :
    lookupEntry (processField it f) f =
      match lookupEntry it f with
      | some (.str s) => some (match jsonLoads s with | some w => w | Option.none => .list [])
      | o => o := by
  unfold processField
  cases hl : lookupEntry it f with
  | none => simp [hl]
  | some w =>
    cases w with
    | str s => simp [hl, lookupEntry_setKey_self]
    | int n => simp [hl]
    | bool b => simp [hl]
    | none => simp [hl]
    | list xs => simp [hl]
    | dict es => simp [hl]

theorem keys_process (it : PyEntries) :
    (process_loaded_item it).map Prod.fst = it.map Prod.fst := by
  simp only [process_loaded_item, list_fields, List.foldl]
  rw [keys_processField, keys_processField, keys_processField, keys_processField,
    keys_processField]

theorem entries_ext : ∀ (l1 l2 : PyEntries),
    l1.map Prod.fst = l2.map Prod.fst →
    (l1.map Prod.fst).Nodup →
    (∀ k, lookupEntry l1 k = lookupEntry l2 k) → l1 = l2 := by
  intro l1
  induction l1 with
  | nil =>
    intro l2 hk _ _
    cases l2 with
    | nil => rfl
    | cons kv t => simp at hk
  | cons kv t ih =>
    intro l2 hk hn hl
    obtain ⟨k, v⟩ := kv
    cases l2 with
    | nil => simp at hk
    | cons kv2 t2 =>
      obtain ⟨k2, v2⟩ := kv2
      simp only [List.map_cons, List.cons.injEq] at hk
      obtain ⟨hk1, hk2⟩ := hk
      subst hk1
      have hv : v = v2 := by
        have := hl k
        simpa [lookupEntry] using this
      subst hv
      simp only [List.map_cons, List.nodup_cons] at hn
      have htl : ∀ k', lookupEntry t k' = lookupEntry t2 k' := by
        intro k'
        by_cases hkk : k' = k
        · subst hkk
          rw [lookup_none_of_not_mem hn.1, lookup_none_of_not_mem (hk2 ▸ hn.1)]
        · have := hl k'
          have hne : ¬ k = k' := fun hh => hkk hh.symm
          simpa [lookupEntry, if_neg hne] using this
      rw [ih t2 hk2 hn.2 htl]

theorem lookup_process (it : PyEntries) (k : String) :
    lookupEntry (process_loaded_item it) k =
      if list_fields.contains k then
        (match lookupEntry it k with
         | some (.str s) => some (match jsonLoads s with | some w => w | Option.none => .list [])
         | o => o)
      else lookupEntry it k := by
  simp only [process_loaded_item, List.foldl, list_fields]
  by_cases h5 : k = "notes"
  · subst h5
    rw [lookup_processField_self]
    rw [lookup_processField_ne _ _ _ (by decide), lookup_processField_ne _ _ _ (by decide),
      lookup_processField_ne _ _ _ (by decide), lookup_processField_ne _ _ _ (by decide)]
    simp [list_fields]
  · rw [lookup_processField_ne _ _ _ h5]
    by_cases h4 : k = "dependencies"
    · subst h4
      rw [lookup_processField_self]
      rw [lookup_processField_ne _ _ _ (by decide), lookup_processField_ne _ _ _ (by decide),
        lookup_processField_ne _ _ _ (by decide)]
      simp [list_fields]
    · rw [lookup_processField_ne _ _ _ h4]
      by_cases h3 : k = "completion_dates"
      · subst h3
        rw [lookup_processField_self]
        rw [lookup_processField_ne _ _ _ (by decide), lookup_processField_ne _ _ _ (by decide)]
        simp [list_fields]
      · rw [lookup_processField_ne _ _ _ h3]
        by_cases h2 : k = "subtasks"
        · subst h2
          rw [lookup_processField_self]
          rw [lookup_processField_ne _ _ _ (by decide)]
          simp [list_fields]
        · rw [lookup_processField_ne _ _ _ h2]
          by_cases h1 : k = "tags"
          · subst h1
            rw [lookup_processField_self]
            simp [list_fields]
          · rw [if_neg (by simp [list_fields]; tauto : ¬(["tags", "subtasks",
              "completion_dates", "dependencies", "notes"].contains k = true))]
            exact lookup_processField_ne _ _ _ h1

theorem jsf_sub {k : String} (h : jsonStringFields.contains k = true) :
    list_fields.contains k = true := by
  simp [jsonStringFields] at h
  simp [list_fields]
  tauto

/-- On a good record, loading undoes the JSON-string encoding that saving
applied: `_process_loaded_item ∘ _prepare_for_json = id`. -/
theorem process_prepare_id (r : PyEntries) (hg : GoodRecord r) :
    process_loaded_item (prepare_for_json r) = r := by
  obtain ⟨hnd, hgood⟩ := hg
  have hkeys : (prepare_for_json r).map Prod.fst = r.map Prod.fst := by
    rw [prepare_eq_map, List.map_map]
    apply List.map_congr_left
    intro kv _
    rfl
  apply entries_ext
  · rw [keys_process, hkeys]
  · rw [keys_process, hkeys]
    exact hnd
  · intro k
    rw [lookup_process, prepare_eq_map, lookupEntry_map_val]
    cases hl : lookupEntry r k with
    | none => simp
    | some v =>
      have hgv : goodFieldB k v = true := hgood _ (lookup_mem hl)
      by_cases hin : list_fields.contains k = true
      · rw [if_pos hin]
        cases v with
        | str s =>
          simp only [goodFieldB, Bool.not_eq_true', Bool.not_eq_false] at hgv
          rw [hgv] at hin
          simp at hin
        | int n => simp [prepV]
        | bool b => simp [prepV]
        | none => simp [prepV]
        | dict es => simp [goodFieldB] at hgv
        | list xs =>
          by_cases hjs : jsonStringFields.contains k = true
          · have hnice : niceListB xs = true := by
              simp only [goodFieldB, hjs, Bool.not_true, Bool.false_or] at hgv
              exact hgv
            have hjsm : k ∈ jsonStringFields := by simpa using hjs
            by_cases he : xs.isEmpty = true
            · have hxs : xs = [] := List.isEmpty_iff.mp he
              subst hxs
              have h0 : jsonLoads "[]" = some (PyVal.list []) := by
                rw [show ("[]" : String) = jsonDumps false true (.list []) from rfl]
                exact jsonLoads_dump _ (by rfl)
              simp [prepV, hjsm, h0]
            · have heb : xs.isEmpty = false := by simpa using he
              have hld : jsonLoads (jsonDumps false true (.list xs)) = some (.list xs) :=
                jsonLoads_dump _ (by simpa [niceValB] using hnice)
              simp [prepV, hjsm, heb, hld]
          · have hjsm : k ∉ jsonStringFields := by simpa using hjs
            simp [prepV, hjsm]
      · rw [if_neg hin]
        cases v with
        | str s => simp [prepV]
        | int n => simp [prepV]
        | bool b => simp [prepV]
        | none => simp [prepV]
        | dict es => simp [goodFieldB] at hgv
        | list xs =>
          have hjs : jsonStringFields.contains k = false := by
            by_contra hc
            simp only [Bool.not_eq_false] at hc
            exact hin (jsf_sub hc)
          have hjsm : k ∉ jsonStringFields := by simpa using hjs
          simp [prepV, hjsm]

theorem eraseKey_setKey_self (es : PyEntries) (k : String) (v : PyVal) :
    eraseKey (setKey es k v) k = eraseKey es k := by
  induction es with
  | nil => simp [setKey, eraseKey]
  | cons kv t ih =>
    obtain ⟨k', w⟩ := kv
    by_cases hk : k' = k
    · subst hk
      simp [setKey, eraseKey]
    · simp [setKey, eraseKey, hk, ih]

theorem eraseKey_setKey_ne (es : PyEntries) (k k' : String) (v : PyVal) (h : k ≠ k') :
    eraseKey (setKey es k' v) k = setKey (eraseKey es k) k' v := by
  induction es with
  | nil => simp [setKey, eraseKey, Ne.symm h]
  | cons kv t ih =>
    obtain ⟨k0, w⟩ := kv
    by_cases h1 : k0 = k'
    · subst h1
      simp [setKey, eraseKey, Ne.symm h]
    · by_cases h2 : k0 = k
      · subst h2
        simp [setKey, eraseKey, h1, ih]
      · simp [setKey, eraseKey, h1, h2, ih]

theorem load_of_envelope (dt now : String) (serializable : List PyEntries) :
    load_from_file dt (some (.json (fileEnvelope now serializable))) =
      (serializable.map process_loaded_item, []) := by
  have hall : (serializable.map PyVal.dict).all isDictV = true := by
    simp only [List.all_eq_true]
    intro v hv
    obtain ⟨es, -, rfl⟩ := List.mem_map.mp hv
    rfl
  simp only [load_from_file, fileEnvelope, lookupEntry]
  rw [if_neg (by decide : ¬("metadata" : String) = "data")]
  simp +decide [hall, List.map_map]
  intro a _
  rfl

theorem save_data_success (records : List PyEntries) (st : Store) (now : String)
    (selfPid : Nat) (alive : Nat → Bool)
    (h1 : st.lockFile = Option.none)
    (h2 : first_invalid "tasks" records = .ok Option.none) :
    save_data "tasks" records true ⟨true, true, true⟩ st now selfPid alive =
      { ok := true, msgs := [],
        store := { st with
          tasksFile := some (.json (fileEnvelope now
            ((records.map (stamp_record now)).map prepare_for_json))),
          lockFile := Option.none },
        records := records.map (stamp_record now) } := by
  simp +decide [save_data, h1, acquire_lock, h2, save_to_file, release_lock, setFileIn, getFile]

/-- C5 (corrected): round trip modulo stamping.  For a batch of task
records each of which already carries `updated_at`, passes validation, and
whose stamped form is a `GoodRecord` (no dict-valued fields, no plain
strings under the five `list_fields`, `nice` lists under the four
stringified fields) that the post-load filter accepts, `load_data` after a
successful `save_data` returns exactly the stamped records
`records.map (stamp_record now)` with no warnings — and stamping changes
nothing outside the `checksum` and `version` fields.  (The unamended claim
fails: a plain-string `notes` field is destroyed, see the counterexample.) -/
theorem C5_roundtrip_modulo_stamp (records : List PyEntries) (st : Store) (now : String)
    (selfPid : Nat) (alive : Nat → Bool)
    (h1 : st.lockFile = Option.none)
    (h2 : first_invalid "tasks" records = .ok Option.none)
    (h3 : ∀ r ∈ records, GoodRecord (stamp_record now r))
    (h4 : filter_validated "tasks" (records.map (stamp_record now)) =
      .ok (records.map (stamp_record now), []))
    (h5 : ∀ r ∈ records, hasKey r "updated_at" = true) :
    (save_data "tasks" records true ⟨true, true, true⟩ st now selfPid alive).ok = true ∧
    (load_data "tasks" true
        (save_data "tasks" records true ⟨true, true, true⟩ st now selfPid alive).store).records
      = records.map (stamp_record now) ∧
    (load_data "tasks" true
        (save_data "tasks" records true ⟨true, true, true⟩ st now selfPid alive).store).msgs
      = [] ∧
    ∀ r ∈ records,
      eraseKey (eraseKey (stamp_record now r) "checksum") "version" =
        eraseKey (eraseKey r "checksum") "version" := by
  rw [save_data_success records st now selfPid alive h1 h2]
  have hpp : ∀ a ∈ records.map (stamp_record now),
      (process_loaded_item ∘ prepare_for_json) a = id a := by
    intro a ha
    obtain ⟨r, hr, rfl⟩ := List.mem_map.mp ha
    exact process_prepare_id _ (h3 r hr)
  have hdata : load_from_file "tasks"
      (some (.json (fileEnvelope now ((records.map (stamp_record now)).map prepare_for_json))))
      = (records.map (stamp_record now), []) := by
    rw [load_of_envelope, List.map_map, List.map_congr_left hpp, List.map_id]
  have hload : load_data "tasks" true
      { st with
        tasksFile := some (.json (fileEnvelope now
          ((records.map (stamp_record now)).map prepare_for_json))),
        lockFile := Option.none }
      = { records := records.map (stamp_record now), msgs := [] } := by
    have hgf : getFile { st with
        tasksFile := some (.json (fileEnvelope now
          ((records.map (stamp_record now)).map prepare_for_json))),
        lockFile := Option.none } "tasks"
      = some (.json (fileEnvelope now
          ((records.map (stamp_record now)).map prepare_for_json))) := rfl
    simp only [load_data, hgf, hdata]
    cases records with
    | nil => simp
    | cons r t =>
      simp only [List.map_cons, List.isEmpty_cons, Bool.not_false, Bool.and_self, if_true]
      rw [List.map_cons] at h4
      rw [h4]
      simp
  refine ⟨rfl, ?_, ?_, ?_⟩
  · rw [hload]
  · rw [hload]
  · intro r hr
    have hup := h5 r hr
    simp only [stamp_record, hup, if_true]
    rw [eraseKey_setKey_ne _ _ _ _ (by decide), eraseKey_setKey_self,
      eraseKey_setKey_self]

/-- A concrete valid task record for the C5 round trip: all required
fields, an `updated_at`, a stringified-list field and a list-valued
`notes`. -/
def c5GoodRec : PyEntries :=
  [("id", .str "t1"), ("title", .str "Write report"), ("status", .str "pending"),
   ("priority", .str "high"), ("created_at", .str "2024-01-02T03:04:05"),
   ("updated_at", .str "2024-01-02T03:04:05"),
   ("tags", .list [.str "work", .str "q1"]),
   ("notes", .list [.str "first note"])]

def c5GoodStore : Store :=
  { autoBackup := true, tasksFile := Option.none, habitsFile := Option.none,
    lockFile := Option.none, backups := [] }

set_option maxRecDepth 40000 in
theorem C5_roundtrip_modulo_stamp_witness :
    (save_data "tasks" [c5GoodRec] true ⟨true, true, true⟩ c5GoodStore
        "2024-01-02T03:04:05" 1000 (fun _ => true)).ok = true ∧
    (load_data "tasks" true
        (save_data "tasks" [c5GoodRec] true ⟨true, true, true⟩ c5GoodStore
          "2024-01-02T03:04:05" 1000 (fun _ => true)).store).records
      = [c5GoodRec].map (stamp_record "2024-01-02T03:04:05") ∧
    (load_data "tasks" true
        (save_data "tasks" [c5GoodRec] true ⟨true, true, true⟩ c5GoodStore
          "2024-01-02T03:04:05" 1000 (fun _ => true)).store).msgs
      = [] ∧
    ∀ r ∈ [c5GoodRec],
      eraseKey (eraseKey (stamp_record "2024-01-02T03:04:05" r) "checksum") "version" =
        eraseKey (eraseKey r "checksum") "version" :=
  C5_roundtrip_modulo_stamp [c5GoodRec] c5GoodStore "2024-01-02T03:04:05" 1000 (fun _ => true)
    rfl
    rfl
    (by
      intro r hr
      simp only [List.mem_singleton] at hr
      subst hr
      exact ⟨by decide, by decide⟩)
    rfl
    (by
      intro r hr
      simp only [List.mem_singleton] at hr
      subst hr
      rfl)
